import Mathlib

/-!
# Verification of ckanext-scheming `validation.py`

A shallow embedding of `ckanext/scheming/validation.py` together with models
of the external collaborators it calls (the CKAN validator registry,
`ckan.lib.helpers.date_str_to_datetime`, the CKAN core validator `not_empty`,
the `pytz` timezone library and Python's `json` module), and theorems about
the embedded definitions.

Conventions:
* Python machine-level details irrelevant to the code (object identity,
  reference counting) are not modelled; dictionaries are modelled as
  association lists, exceptions as explicit result values.
* Names of embedded functions follow the source (`validators_from_string`,
  `scheming_multiple_choice`, `validate_date_inputs`, ...).
-/

namespace Scheming

/-! ## Association-list dictionaries

Python `dict`s restricted to the operations the source uses: lookup (`get` /
`[]`), assignment, and `del`.  Keys are unique in well-formed states; `alSet`
replaces the first binding, `alErase` removes it. -/

def alLookup {K V : Type} [DecidableEq K] : List (K × V) → K → Option V
  | [], _ => none
  | (k', v) :: t, k => if k' = k then some v else alLookup t k

def alSet {K V : Type} [DecidableEq K] : List (K × V) → K → V → List (K × V)
  | [], k, v => [(k, v)]
  | (k', v') :: t, k, v => if k' = k then (k, v) :: t else (k', v') :: alSet t k v

def alErase {K V : Type} [DecidableEq K] : List (K × V) → K → List (K × V)
  | [], _ => []
  | (k', v') :: t, k => if k' = k then t else (k', v') :: alErase t k

/-! ## Field definitions and schemas

§3 of the source docs: a field is a mapping with at least `required`
(absence = false) and, for choice fields, `choices`, an ordered sequence of
entries each exposing a `value`.  The schema is passed through opaquely. -/

structure Choice where
  value : String
deriving DecidableEq, Repr

structure FieldDef where
  choices : List Choice
  required : Bool
deriving DecidableEq, Repr

abbrev Schema := Unit

/-! ## The validator-string compiler (`validators_from_string`)

The registry of callables is external (ckantoolkit `get_validator`), so the
embedding is parametric in a type `E` of Python callables together with the
three operations the compiler performs on them: calling with a list of
literal string arguments (`f(*args)`), reading the `is_a_scheming_validator`
marker, and calling with `(field, schema)`. -/

structure CallableSem (E : Type) where
  callArgs : E → List String → E
  isSchemingValidator : E → Bool
  callFieldSchema : E → FieldDef → Schema → E

/-- Python `s.split()` over the characters: split on runs of whitespace,
dropping empty pieces (`cur` accumulates the current token, reversed). -/

def pySplitWsChars : List Char → List Char → List (List Char)
  | [], cur => if cur = [] then [] else [cur.reverse]
  | c :: rest, cur =>
    if c.isWhitespace then
      if cur = [] then pySplitWsChars rest []
      else cur.reverse :: pySplitWsChars rest []
    else pySplitWsChars rest (c :: cur)

/-- Python `s.split()`. -/

def pySplitWs (s : String) : List String :=
  (pySplitWsChars s.data []).map (fun cs => ⟨cs⟩)

/-- Python `s.split(',')` over the characters. -/

def pySplitCommaChars : List Char → List Char → List (List Char)
  | [], cur => [cur.reverse]
  | c :: rest, cur =>
    if c = ',' then cur.reverse :: pySplitCommaChars rest []
    else pySplitCommaChars rest (c :: cur)

/-- Python `s.split(',')` (note `''.split(',') == ['']`). -/

def pySplitComma (s : String) : List String :=
  (pySplitCommaChars s.data []).map (fun cs => ⟨cs⟩)

/-- The token test `'(' in p and p[-1] == ')'` (line 227). -/

def parenToken (p : String) : Prop :=
  p.data.contains '(' ∧ p.data.getLast? = some ')'

instance (p : String) : Decidable (parenToken p) := by
  unfold parenToken
  infer_instance

/-- Embeds `get_validator_or_converter`: the name `unicode` resolves to the
builtin `unicode` callable; otherwise the external registry (modelled as a
partial map `reg`) is consulted; an unknown name raises `SchemingException`
(modelled as `Except.error` carrying the formatted message). -/

def get_validator_or_converter {E : Type} (reg : String → Option E) (uni : E)
    (name : String) : Except String E :=
  if name = "unicode" then .ok uni
  else
    match reg name with
    | some v => .ok v
    | none => .error ("validator/converter not found: " ++ "'" ++ name ++ "'")

/-- One iteration of the loop body of `validators_from_string` for a token
`p`: parenthesized tokens are split into name and comma-separated literal
arguments and the resolved callable is invoked with them; afterwards a
callable marked `is_a_scheming_validator` is invoked with `(field, schema)`. -/

def compileToken {E : Type} (C : CallableSem E) (reg : String → Option E)
    (uni : E) (field : FieldDef) (schema : Schema) (p : String) :
    Except String E :=
  if parenToken p then
    let name : String := ⟨p.data.takeWhile (fun c => c ≠ '(')⟩
    let args := pySplitComma ⟨(p.data.drop (name.length + 1)).dropLast⟩
    (get_validator_or_converter reg uni name).map fun f =>
      let v := C.callArgs f args
      if C.isSchemingValidator v then C.callFieldSchema v field schema else v
  else
    (get_validator_or_converter reg uni p).map fun v =>
      if C.isSchemingValidator v then C.callFieldSchema v field schema else v

/-- Embeds `validators_from_string`: split the spec string on whitespace and
compile each token in order, appending the results; the first unresolvable
name aborts compilation with its error. -/

def validators_from_string {E : Type} (C : CallableSem E)
    (reg : String → Option E) (uni : E) (s : String) (field : FieldDef)
    (schema : Schema) : Except String (List E) :=
  (pySplitWs s).mapM (compileToken C reg uni field schema)

/-- The name part of a token: for `identifier(args)` the part before the
first `(`, otherwise the whole token. -/

def tokenName (p : String) : String :=
  if parenToken p then ⟨p.data.takeWhile (fun c => c ≠ '(')⟩ else p

/-- The callable a token contributes once its name resolved to `f`:
parenthesized tokens invoke `f` with the comma-split literal argument
strings; a result marked field-aware is invoked with `(field, schema)`. -/

def tokenCallable {E : Type} (C : CallableSem E) (field : FieldDef)
    (schema : Schema) (p : String) (f : E) : E :=
  let v :=
    if parenToken p then
      C.callArgs f (pySplitComma ⟨(p.data.drop ((tokenName p).length + 1)).dropLast⟩)
    else f
  if C.isSchemingValidator v then C.callFieldSchema v field schema else v

/-! ## Python values

One inductive type covers every Python value the source manipulates:
`None`, the ckantoolkit `missing` sentinel, booleans, numbers (kept as
lexemes), strings, lists, dicts, `datetime.datetime` instances and the
`__extras` dict of raw string inputs. -/

structure NaiveDT where
  year : Nat
  month : Nat
  day : Nat
  hour : Nat
  minute : Nat
  second : Nat
deriving DecidableEq, Repr

/-- A `datetime.datetime`: naive, or timezone-aware carrying the timezone
name and its UTC offset in minutes at that instant. -/

inductive PyDateTime where
  | naive (d : NaiveDT)
  | aware (d : NaiveDT) (tzName : String) (offsetMinutes : Int)
deriving DecidableEq, Repr

inductive PVal where
  | pynone
  | missingV
  | pybool (b : Bool)
  | pynum (lex : String)
  | str (s : String)
  | pylist (elems : List PVal)
  | pydict (fields : List (String × PVal))
  | dt (d : PyDateTime)
  | extrasDict (m : List (String × String))
deriving Repr

/-- Python truthiness for the values above (`bool(v)`).  The ckantoolkit
`missing` sentinel is falsy (`Missing.__nonzero__` returns `False`). -/

def pyTruthy : PVal → Bool
  | .pynone => false
  | .missingV => false
  | .pybool b => b
  | .pynum lex => ¬(lex = "0" ∨ lex = "0.0")
  | .str s => s ≠ ""
  | .pylist l => !l.isEmpty
  | .pydict f => !f.isEmpty
  | .dt _ => true
  | .extrasDict m => !m.isEmpty

/-! ## Python `json` model


The source calls `json.dumps` on a list of strings and `json.loads` on an
arbitrary stored value.  Decoded documents are returned directly as Python
values (numbers kept as their lexemes).  The encoder mirrors CPython's default
`ensure_ascii=True` escaping; the decoder is a strict recursive-descent
parser for the same grammar `json.loads` accepts (one divergence, noted
below: lone surrogate escapes are rejected because Lean characters are
unicode scalar values). -/

/-- Lower-case hex digit for a value below 16. -/

def hexDigitChar (n : Nat) : Char :=
  if n < 10 then Char.ofNat (48 + n) else Char.ofNat (87 + n)

/-- Four-digit lower-case hex rendering of `n < 65536`, as in `\uXXXX`. -/

def hex4 (n : Nat) : List Char :=
  [hexDigitChar (n / 4096 % 16), hexDigitChar (n / 256 % 16),
   hexDigitChar (n / 16 % 16), hexDigitChar (n % 16)]

/-- CPython's `json` escaping of one character with the default
`ensure_ascii=True`: two-character shorthands for the common escapes,
printable ASCII kept as-is, and `\uXXXX` (a surrogate pair for astral
characters) for everything else. -/

def escChar (c : Char) : List Char :=
  if c = '"' then ['\\', '"']
  else if c = '\\' then ['\\', '\\']
  else if c = Char.ofNat 8 then ['\\', 'b']
  else if c = Char.ofNat 9 then ['\\', 't']
  else if c = Char.ofNat 10 then ['\\', 'n']
  else if c = Char.ofNat 12 then ['\\', 'f']
  else if c = Char.ofNat 13 then ['\\', 'r']
  else if 32 ≤ c.toNat ∧ c.toNat ≤ 126 then [c]
  else if c.toNat < 65536 then '\\' :: 'u' :: hex4 c.toNat
  else
    ('\\' :: 'u' :: hex4 (55296 + (c.toNat - 65536) / 1024)) ++
      ('\\' :: 'u' :: hex4 (56320 + (c.toNat - 65536) % 1024))

/-- The escaped body of a JSON string literal. -/

def escBody (cs : List Char) : List Char :=
  cs.foldr (fun c acc => escChar c ++ acc) []

/-- A complete JSON string literal for `s`. -/

def quotedChars (s : String) : List Char :=
  '"' :: (escBody s.data ++ ['"'])

/-- The element list of `json.dumps` output for a list of strings, with the
default item separator `", "`. -/

def dumpsElems : List String → List Char
  | [] => []
  | [s] => quotedChars s
  | s :: rest => quotedChars s ++ ',' :: ' ' :: dumpsElems rest

/-- `json.dumps` on a list of strings (the only shape the source encodes). -/

def pyJsonDumps (l : List String) : String :=
  ⟨'[' :: (dumpsElems l ++ [']'])⟩

/-- The four JSON whitespace characters. -/

def jsonWsChar (c : Char) : Bool :=
  c = ' ' ∨ c = Char.ofNat 9 ∨ c = Char.ofNat 10 ∨ c = Char.ofNat 13

def skipWs : List Char → List Char
  | [] => []
  | c :: cs => if jsonWsChar c then skipWs cs else c :: cs

def hexDigitVal (c : Char) : Option Nat :=
  if 48 ≤ c.toNat ∧ c.toNat ≤ 57 then some (c.toNat - 48)
  else if 97 ≤ c.toNat ∧ c.toNat ≤ 102 then some (c.toNat - 87)
  else if 65 ≤ c.toNat ∧ c.toNat ≤ 70 then some (c.toNat - 55)
  else none

/-- The character named by a single-letter escape `\e`, if any. -/

def shortEscape (e : Char) : Option Char :=
  if e = '"' then some '"'
  else if e = '\\' then some '\\'
  else if e = '/' then some '/'
  else if e = 'b' then some (Char.ofNat 8)
  else if e = 'f' then some (Char.ofNat 12)
  else if e = 'n' then some (Char.ofNat 10)
  else if e = 'r' then some (Char.ofNat 13)
  else if e = 't' then some (Char.ofNat 9)
  else none

/-- One hex quad `XXXX`, its value and the remaining input. -/

def hexQuad : List Char → Option (Nat × List Char)
  | a :: b :: g :: d :: rest =>
    match hexDigitVal a, hexDigitVal b, hexDigitVal g, hexDigitVal d with
    | some va, some vb, some vg, some vd =>
      some (((va * 16 + vb) * 16 + vg) * 16 + vd, rest)
    | _, _, _, _ => none
  | _ => none

/-- Continuation after a high-surrogate escape of value `n`: a low-surrogate
escape must follow, and the pair combines into one astral character. -/

def escLowSurrogate (n : Nat) : List Char → Option (Char × List Char)
  | '\\' :: 'u' :: t =>
    match hexQuad t with
    | some (m, rest3) =>
      if 56320 ≤ m ∧ m < 57344 then
        some (Char.ofNat (65536 + (n - 55296) * 1024 + (m - 56320)), rest3)
      else none
    | none => none
  | _ => none

/-- A `\uXXXX` escape body (input starts after the `u`).  A lone surrogate
escape is rejected (CPython would produce a lone-surrogate code unit, which
is not representable as a Lean character). -/

def escU (t : List Char) : Option (Char × List Char) :=
  match hexQuad t with
  | some (n, rest2) =>
    if 55296 ≤ n ∧ n < 56320 then escLowSurrogate n rest2
    else if 56320 ≤ n ∧ n < 57344 then none
    else some (Char.ofNat n, rest2)
  | none => none

/-- Decode one backslash escape (the input starts right after the `\`):
the decoded character and the remaining input. -/

def escStep : List Char → Option (Char × List Char)
  | 'u' :: t => escU t
  | e :: rest2 =>
    match shortEscape e with
    | some ch => some (ch, rest2)
    | none => none
  | [] => none

/-- Body of a JSON string literal after the opening quote: the decoded
characters and the input following the closing quote.  Mirrors the strict
`json.loads` scanner: raw control characters are rejected and escapes are
decoded.  The fuel argument only bounds the recursion; callers pass at least
`input length + 1`, which every input satisfies since each step consumes at
least one character. -/

def parseStrBody : Nat → List Char → Option (List Char × List Char)
  | 0, _ => none
  | _ + 1, [] => none
  | fuel + 1, c :: rest =>
    if c = '"' then some ([], rest)
    else if c = '\\' then
      match escStep rest with
      | some (ch, rest2) =>
        match parseStrBody fuel rest2 with
        | some (out, rem) => some (ch :: out, rem)
        | none => none
      | none => none
    else if c.toNat < 32 then none
    else
      match parseStrBody fuel rest with
      | some (out, rem) => some (c :: out, rem)
      | none => none

/-- Fractional part of a JSON number (or nothing). -/

def parseFrac (cs : List Char) : Option (List Char × List Char) :=
  match cs with
  | '.' :: t =>
    let ds := t.takeWhile (fun c => c.isDigit)
    if ds = [] then none else some ('.' :: ds, t.dropWhile (fun c => c.isDigit))
  | _ => some ([], cs)

/-- Exponent part of a JSON number (or nothing). -/

def parseExp (cs : List Char) : Option (List Char × List Char) :=
  match cs with
  | c :: t =>
    if c = 'e' ∨ c = 'E' then
      let (sg, t1) :=
        match t with
        | s :: t' => if s = '+' ∨ s = '-' then ([s], t') else (([] : List Char), t)
        | [] => ([], t)
      let ds := t1.takeWhile (fun c => c.isDigit)
      if ds = [] then none else some (c :: (sg ++ ds), t1.dropWhile (fun c => c.isDigit))
    else some ([], cs)
  | [] => some ([], cs)

/-- A JSON number lexeme `-?(0|[1-9][0-9]*)(.[0-9]+)?([eE][+-]?[0-9]+)?`. -/

def parseNumber (cs : List Char) : Option (String × List Char) := do
  let (neg, cs1) :=
    match cs with
    | '-' :: t => (['-'], t)
    | _ => (([] : List Char), cs)
  match cs1 with
  | c :: t =>
    if c = '0' then do
      let (fr, t2) ← parseFrac t
      let (ex, t3) ← parseExp t2
      pure (⟨neg ++ '0' :: (fr ++ ex)⟩, t3)
    else if c.isDigit then do
      let ds := t.takeWhile (fun x => x.isDigit)
      let t1 := t.dropWhile (fun x => x.isDigit)
      let (fr, t2) ← parseFrac t1
      let (ex, t3) ← parseExp t2
      pure (⟨neg ++ c :: (ds ++ (fr ++ ex))⟩, t3)
    else none
  | [] => none

mutual

/-- One JSON value.  The fuel argument bounds the recursion depth; `jsonLoads`
passes fuel exceeding the total number of parser steps any input of its
length can force, so the bound is never the reason an input is rejected. -/
def parseValue : Nat → List Char → Option (PVal × List Char)
  | 0, _ => none
  | fuel + 1, cs =>
    match cs with
    | 'n' :: 'u' :: 'l' :: 'l' :: rest => some (.pynone, rest)
    | 't' :: 'r' :: 'u' :: 'e' :: rest => some (.pybool true, rest)
    | 'f' :: 'a' :: 'l' :: 's' :: 'e' :: rest => some (.pybool false, rest)
    | 'N' :: 'a' :: 'N' :: rest => some (.pynum "NaN", rest)
    | 'I' :: 'n' :: 'f' :: 'i' :: 'n' :: 'i' :: 't' :: 'y' :: rest =>
      some (.pynum "Infinity", rest)
    | '-' :: 'I' :: 'n' :: 'f' :: 'i' :: 'n' :: 'i' :: 't' :: 'y' :: rest =>
      some (.pynum "-Infinity", rest)
    | '"' :: rest =>
      match parseStrBody (rest.length + 1) rest with
      | some (body, rem) => some (.str ⟨body⟩, rem)
      | none => none
    | '[' :: rest =>
      match skipWs rest with
      | ']' :: rem => some (.pylist [], rem)
      | rest' =>
        match parseElems fuel rest' with
        | some (es, rem) => some (.pylist es, rem)
        | none => none
    | '{' :: rest =>
      match skipWs rest with
      | '}' :: rem => some (.pydict [], rem)
      | rest' =>
        match parseMembers fuel rest' with
        | some (ms, rem) => some (.pydict ms, rem)
        | none => none
    | _ =>
      match parseNumber cs with
      | some (lex, rem) => some (.pynum lex, rem)
      | none => none

/-- Comma-separated JSON values up to a closing `]`. -/
def parseElems : Nat → List Char → Option (List PVal × List Char)
  | 0, _ => none
  | fuel + 1, cs =>
    match parseValue fuel cs with
    | some (v, rem) =>
      match skipWs rem with
      | ',' :: rem2 =>
        match parseElems fuel (skipWs rem2) with
        | some (vs, rem3) => some (v :: vs, rem3)
        | none => none
      | ']' :: rem2 => some ([v], rem2)
      | _ => none
    | none => none

/-- Comma-separated `"key": value` members up to a closing `}`. -/
def parseMembers : Nat → List Char → Option (List (String × PVal) × List Char)
  | 0, _ => none
  | fuel + 1, cs =>
    match cs with
    | '"' :: rest =>
      match parseStrBody (rest.length + 1) rest with
      | some (kcs, rem) =>
        match skipWs rem with
        | ':' :: rem2 =>
          match parseValue fuel (skipWs rem2) with
          | some (v, rem3) =>
            match skipWs rem3 with
            | ',' :: rem4 =>
              match parseMembers fuel (skipWs rem4) with
              | some (ms, rem5) => some ((⟨kcs⟩, v) :: ms, rem5)
              | none => none
            | '}' :: rem4 => some ([(⟨kcs⟩, v)], rem4)
            | _ => none
          | none => none
        | _ => none
      | none => none
    | _ => none

end

/-- Python `json.loads` on a string: parse one value surrounded by optional
whitespace; anything else raises `ValueError` (modelled as `none`). -/

def jsonLoads (s : String) : Option PVal :=
  match parseValue (2 * (skipWs s.data).length + 2) (skipWs s.data) with
  | some (j, rem) => if skipWs rem = [] then some j else none
  | none => none

/-! ## Choice-set coercion (`scheming_multiple_choice` and
`scheming_multiple_choice_output`)

The per-record validator reads and writes only `data[key]` and
`errors[key]`, so it is embedded as a function on that pair. -/

/-- `'%s' % element` as used in the unexpected-choice message.  Exact for the
shapes that occur in submissions (strings, numbers, `None`); other shapes get
a best-effort rendering no theorem depends on. -/

def pyStrOf : PVal → String
  | .pynone => "None"
  | .missingV => "Missing"
  | .pybool b => if b then "True" else "False"
  | .pynum lex => lex
  | .str s => s
  | .pylist _ => "[list]"
  | .pydict _ => "[dict]"
  | .dt _ => "[datetime]"
  | .extrasDict _ => "[dict]"

/-- The error text for one unrecognized element. -/

def unexpectedMsg (e : PVal) : String :=
  "unexpected choice \"" ++ pyStrOf e ++ "\""

/-- Lines 68–75 of the source: the submitted value as an element list.
`missing` means an empty selection, a string is a one-element selection, a
list is kept; any other type is the "expecting list of strings" error. -/

def mcElems : PVal → Option (List PVal)
  | .missingV => some []
  | .str s => some [.str s]
  | .pylist l => some l
  | _ => none

/-- `element in choice_values`: only a string equal to a declared choice
value is recognized (the choice values are strings, so membership fails for
every non-string element). -/

def mcRecognized (choice_values : List String) : PVal → Bool
  | .str s => choice_values.contains s
  | _ => false

/-- The element loop (lines 77–82): a recognized element joins the
`selected` set (modelled as the list of recognized submitted strings; a
recognized element is a string, and `pyStrOf` of a string is itself), each
unrecognized element appends one "unexpected choice" error, in element
order. -/

def mcLoop (choice_values : List String) :
    List PVal → List String → List String → List String × List String
  | [], sel, errs => (sel, errs)
  | e :: rest, sel, errs =>
    if mcRecognized choice_values e then
      mcLoop choice_values rest (pyStrOf e :: sel) errs
    else mcLoop choice_values rest sel (errs ++ [unexpectedMsg e])

/-- Embeds the per-record validator produced by
`scheming_multiple_choice(field, schema)` (lines 61–91), as a function of
the only state it reads or writes: the pair `(data[key], errors[key])`.
If `errors[key]` is non-empty the validator returns immediately; otherwise
the submitted elements are checked against the declared choice values, and
only when no error was recorded is `data[key]` replaced by the JSON encoding
of the recognized values in declared choice order, with the required-field
check appending "Select at least one" on an empty selection. -/

def scheming_multiple_choice (field : FieldDef) (value : PVal)
    (errs : List String) : PVal × List String :=
  if !errs.isEmpty then (value, errs)
  else
    let choice_values := field.choices.map (fun c => c.value)
    match mcElems value with
    | none => (value, errs ++ ["expecting list of strings"])
    | some elems =>
      let r := mcLoop choice_values elems [] errs
      if r.2.isEmpty then
        (.str (pyJsonDumps (choice_values.filter (fun v => r.1.contains v))),
          if field.required && r.1.isEmpty then r.2 ++ ["Select at least one"]
          else r.2)
      else (value, r.2)

/-- Embeds `scheming_multiple_choice_output` (lines 205–214): a list passes
through; otherwise the stored value is `json.loads`-decoded, and a
`ValueError` (undecodable string) falls back to wrapping the raw value in a
one-element list.  `json.loads` on a non-string, non-list value raises
`TypeError`, which the `except ValueError` clause does not catch; that
uncaught exception is the `Except.error` case. -/

def scheming_multiple_choice_output (value : PVal) : Except String PVal :=
  match value with
  | .pylist l => .ok (.pylist l)
  | .str s =>
    match jsonLoads s with
    | some v => .ok v
    | none => .ok (.pylist [.str s])
  | _ => .error "TypeError"

/-! ## Calendar arithmetic and the pytz model -/

def isLeap (y : Nat) : Bool := y % 4 = 0 ∧ (y % 100 ≠ 0 ∨ y % 400 = 0)

def daysInMonth (y m : Nat) : Nat :=
  if m = 2 then (if isLeap y then 29 else 28)
  else if m = 4 ∨ m = 6 ∨ m = 9 ∨ m = 11 then 30
  else 31

/-- Julian day number of a Gregorian date (valid for year ≥ 1). -/

def jdnOfYmd (y m d : Nat) : Nat :=
  let a := (14 - m) / 12
  let y1 := y + 4800 - a
  let m1 := m + 12 * a - 3
  d + (153 * m1 + 2) / 5 + 365 * y1 + y1 / 4 - y1 / 100 + y1 / 400 - 32045

/-- Gregorian date of a Julian day number (inverse of `jdnOfYmd` on the
supported range). -/

def ymdOfJdn (j : Nat) : Nat × Nat × Nat :=
  let a := j + 32044
  let b := (4 * a + 3) / 146097
  let c := a - 146097 * b / 4
  let d1 := (4 * c + 3) / 1461
  let e := c - 1461 * d1 / 4
  let m1 := (5 * e + 2) / 153
  (100 * b + d1 - 4800 + m1 / 10, m1 + 3 - 12 * (m1 / 10),
    e - (153 * m1 + 2) / 5 + 1)

/-- Wall-clock shift by a (possibly negative) number of minutes. -/

def addMinutes (d : NaiveDT) (k : Int) : NaiveDT :=
  let total : Int :=
    (jdnOfYmd d.year d.month d.day : Int) * 1440 + d.hour * 60 + d.minute + k
  let j := (total.fdiv 1440).toNat
  let rem := (total.fmod 1440).toNat
  let ymd := ymdOfJdn j
  ⟨ymd.1, ymd.2.1, ymd.2.2, rem / 60, rem % 60, d.second⟩

/-- Day of month of the last Sunday of a month (Julian day number 0 was a
Monday, so `jdn % 7 = 6` means Sunday). -/

def lastSundayDay (y m : Nat) : Nat :=
  let last := daysInMonth y m
  last - ((jdnOfYmd y m last + 1) % 7)

/-- Models the external pytz database for `Europe/London`: British Summer
Time runs from the last Sunday of March, 01:00, to the last Sunday of
October, 01:00.  (The hour-level subtlety of measuring the transition
instant in UTC versus local time is immaterial here: the claims use
mid-winter instants.) -/

def londonIsBST (d : NaiveDT) : Bool :=
  if d.month < 3 ∨ d.month > 10 then false
  else if 3 < d.month ∧ d.month < 10 then true
  else if d.month = 3 then
    let ls := lastSundayDay d.year 3
    d.day > ls ∨ (d.day = ls ∧ d.hour ≥ 1)
  else
    let ls := lastSundayDay d.year 10
    d.day < ls ∨ (d.day = ls ∧ d.hour < 1)

/-- Models pytz `utcoffset`, in minutes, for the timezone names the model
knows; every other modelled name is UTC-equivalent. -/

def tzOffsetMinutes (name : String) (d : NaiveDT) : Int :=
  if name = "Europe/London" then (if londonIsBST d then 60 else 0) else 0

/-- Models `pytz.all_timezones`, restricted to the names this development
mentions (membership of any further name is immaterial to the claims). -/

def pytz_all_timezones : List String := ["UTC", "GMT", "Europe/London"]

/-- Models `pytz.timezone(name).localize(date)`: attach the zone and its
offset for that wall-clock time, without shifting the wall clock.  (The
validators only localize naive values; pytz would raise on an aware one.) -/

def pytzLocalize (name : String) : PyDateTime → PyDateTime
  | .naive d => .aware d name (tzOffsetMinutes name d)
  | .aware d n o => .aware d n o

/-! ## The external CKAN date parser -/

def digitVal (c : Char) : Nat := c.toNat - 48

/-- Digit-group tokenizer for `date_str_to_datetime`: the scan of
`re.split('[^\d]+', s)` where any leading or trailing separator run would
produce an empty piece (and so an `int('')` error). -/

def dsdGroups : List Char → Nat → Bool → List Nat → Option (List Nat)
  | [], g, true, acc => some ((g :: acc).reverse)
  | [], _, false, _ => none
  | c :: rest, g, inG, acc =>
    if c.isDigit then
      if inG then dsdGroups rest (g * 10 + digitVal c) true acc
      else dsdGroups rest (digitVal c) true acc
    else
      if inG then dsdGroups rest 0 false (g :: acc)
      else dsdGroups rest 0 false acc

/-- `datetime.datetime(*fields)`: three to six numeric fields with calendar
range validation (a wrong arity raises `TypeError`, an out-of-range field
`ValueError`; callers catch both alike). -/

def mkDatetime (groups : List Nat) : Option NaiveDT :=
  match groups with
  | [y, m, d] => mkDatetimeChecked y m d 0 0 0
  | [y, m, d, h] => mkDatetimeChecked y m d h 0 0
  | [y, m, d, h, mi] => mkDatetimeChecked y m d h mi 0
  | [y, m, d, h, mi, s] => mkDatetimeChecked y m d h mi s
  | _ => none
where
  mkDatetimeChecked (y m d h mi s : Nat) : Option NaiveDT :=
    if 1 ≤ y ∧ y ≤ 9999 ∧ 1 ≤ m ∧ m ≤ 12 ∧ 1 ≤ d ∧ d ≤ daysInMonth y m ∧
        h < 24 ∧ mi < 60 ∧ s < 60 then
      some ⟨y, m, d, h, mi, s⟩
    else none

/-- Models the external `ckan.lib.helpers.date_str_to_datetime`: split the
string on runs of non-digit characters and build
`datetime(year, month, day[, hour[, minute[, second]]])` from the numeric
pieces; `None` input raises `TypeError` (`none` here, like every failure,
since the callers catch `TypeError` and `ValueError` alike).  Not modelled:
the helper's fractional-second (microsecond) handling and its requirement
that a sixth field be exactly two digits. -/

def date_str_to_datetime (v : Option String) : Option NaiveDT :=
  match v with
  | none => none
  | some s =>
    match s.data with
    | [] => none
    | c :: _ =>
      if c.isDigit then
        match dsdGroups s.data 0 false [] with
        | some groups => mkDatetime groups
        | none => none
      else none

/-! ## Validation state

navl passes each validator `(key, data, errors, context)`: `data` maps
field-path tuples to values (the Extras Bag is the dict stored at
`('__extras',)`), `errors` maps them to message lists. -/

/-- A field-path key.  Python key tuples are non-empty in every call the
source makes, so the head component is explicit. -/

structure DKey where
  head : String
  rest : List String
deriving DecidableEq, Repr

/-- The key of the Extras Bag inside Record Data. -/

def extrasKey : DKey := ⟨"__extras", []⟩

structure VState where
  data : List (DKey × PVal)
  errors : List (DKey × List String)
deriving Repr

def dataGet (st : VState) (k : DKey) : Option PVal := alLookup st.data k

def dataSet (st : VState) (k : DKey) (v : PVal) : VState :=
  { st with data := alSet st.data k v }

def errGet (st : VState) (k : DKey) : List String := (alLookup st.errors k).getD []

def errSet (st : VState) (k : DKey) (l : List String) : VState :=
  { st with errors := alSet st.errors k l }

def errAppend (st : VState) (k : DKey) (msg : String) : VState :=
  errSet st k (errGet st k ++ [msg])

/-- Exceptions that escape these validators: navl `StopOnError` (raised by
`not_empty`) and `Invalid` with its message.  State mutated before a raise
persists. -/

inductive Exn where
  | stopOnError
  | invalid (msg : String)
deriving DecidableEq, Repr

/-- Models the external CKAN core validator `not_empty`: read `data.get(key)`
and, when it is falsy or the `missing` sentinel, append 'Missing value' and
raise `StopOnError`. -/

def not_empty (k : DKey) (st : VState) : VState × Option Exn :=
  let bad :=
    match dataGet st k with
    | none => true
    | some v => !pyTruthy v
  if bad then (errAppend st k "Missing value", some .stopOnError)
  else (st, none)

/-! ## Composite date/time sub-field assembly (`validate_date_inputs`) -/

/-- The derived key of a sub-input:
`(inpt,) + tuple(x for x in key if x != key[0])` (line 102) — note the
filter removes every component equal to the head, not just the head
itself. -/

def derivedKey (key : DKey) (inpt : String) : DKey :=
  ⟨inpt, (key.head :: key.rest).filter (fun x => x ≠ key.head)⟩

/-- Python truthiness of an Extras Bag read (`None` and `''` are falsy). -/

def optStrTruthy : Option String → Bool
  | some s => s ≠ ""
  | none => false

/-- Embeds the closure `get_input` of `validate_date_inputs` (lines
100–113) for one suffix: read the raw value from the Extras Bag (absence is
`None`), write it into Record Data under the derived key, reset that key's
error list to `[]`, delete the entry from the Extras Bag if the value is
truthy, and run `not_empty` on the derived key when the field is required.
Returns the new state, new extras, the derived key, the raw value, and the
exception `not_empty` may raise. -/

def get_input (field : FieldDef) (key : DKey) (suffix : String) (st : VState)
    (extras : List (String × String)) :
    VState × List (String × String) × DKey × Option String × Option Exn :=
  let inpt := key.head ++ "_" ++ suffix
  let new_key := derivedKey key inpt
  let value := alLookup extras inpt
  let st := dataSet st new_key (match value with | some s => .str s | none => .pynone)
  let st := errSet st new_key []
  let extras := if optStrTruthy value then alErase extras inpt else extras
  if field.required then
    let r := not_empty new_key st
    (r.1, extras, new_key, value, r.2)
  else (st, extras, new_key, value, none)

/-- Embeds `validate_date_inputs` (lines 94–144).  The three suffixes are
processed in order; a `StopOnError` raised by a required-field check aborts
the remainder (the state mutated so far persists).  Failure of the host
date parser on the date, the combined date-time string, or the `' ' +
value` concatenation with a `None` (`TypeError`), appends the corresponding
format error.  A non-empty timezone must be a `pytz.all_timezones` member
and, when a date/time value exists, localizes it. -/

def validate_date_inputs (field : FieldDef) (key : DKey) (st : VState)
    (extras : List (String × String)) :
    VState × List (String × String) × Option PyDateTime × Option Exn :=
  let r1 := get_input field key "date" st extras
  let (st, extras, date_key, value, exn1) := r1
  match exn1 with
  | some e => (st, extras, none, some e)
  | none =>
    let step1 : VState × Option PyDateTime × Option String :=
      if value ≠ some "" then
        match date_str_to_datetime value with
        | some d => (st, some (.naive d), value)
        | none => (errAppend st date_key "Date format incorrect", none, value)
      else (st, none, some "")
    let (st, date, value_full) := step1
    let r2 := get_input field key "time" st extras
    let (st, extras, time_key, tvalue, exn2) := r2
    match exn2 with
    | some e => (st, extras, none, some e)
    | none =>
      let step2 : VState × Option PyDateTime :=
        if tvalue ≠ some "" then
          let st :=
            if value_full = some "" then
              errAppend st date_key "Date is required when a time is provided"
            else st
          match value_full, tvalue with
          | some vf, some tv =>
            match date_str_to_datetime (some (vf ++ " " ++ tv)) with
            | some d => (st, some (.naive d))
            | none => (errAppend st time_key "Time format incorrect", date)
          | _, _ => (errAppend st time_key "Time format incorrect", date)
        else (st, date)
      let (st, date) := step2
      let r3 := get_input field key "tz" st extras
      let (st, extras, tz_key, zvalue, exn3) := r3
      match exn3 with
      | some e => (st, extras, none, some e)
      | none =>
        let step3 : VState × Option PyDateTime :=
          match zvalue with
          | some z =>
            if z ≠ "" then
              if z ∉ pytz_all_timezones then
                (errAppend st tz_key "Invalid timezone", date)
              else
                match date with
                | some dd => (st, some (pytzLocalize z dd))
                | none => (st, date)
            else (st, date)
          | none => (st, date)
        let (st, date) := step3
        (st, extras, date, none)

/-! ## The isodatetime validators -/

/-- Modelled from the spec: `scheming_datetime_to_UTC` lives in
`ckanext.scheming.helpers`, which is not under `src/`.  The spec (§4.5 and
the glossary entry "Canonical UTC") describes it as converting a date/time
value to "the canonical UTC representation", the single stored timezone
representation: an aware value is shifted from its zone offset to the UTC
wall clock and kept in canonical (naive UTC) form; a naive value is already
canonical. -/

def scheming_datetime_to_UTC : PyDateTime → PyDateTime
  | .naive d => .naive d
  | .aware d _ off => .naive (addMinutes d (-off))

/-- Modelled from the spec: `date_tz_str_to_datetime` lives in
`ckanext.scheming.helpers`, which is not under `src/`.  The spec (§4.5)
calls it "a date+timezone string parser" for a primary string value of the
timezone-aware variant: the text before the last space parses as a
date/time, the text after it must be a recognized timezone name, and the
result is that value localized into the zone; any failure raises a parse
error (`none`). -/

def date_tz_str_to_datetime (s : String) : Option PyDateTime :=
  match (s.splitOn " ").reverse with
  | tz :: restRev =>
    if restRev = [] then none
    else if tz ∈ pytz_all_timezones then
      match date_str_to_datetime (some (String.intercalate " " restRev.reverse)) with
      | some d => some (pytzLocalize tz (.naive d))
      | none => none
    else none
  | [] => none

/-- `data[key]` in the isodatetime validators: navl flattens the record
before validation, so the key is present (possibly holding `missing`). -/

def dataGetD (st : VState) (k : DKey) : PVal := (dataGet st k).getD .missingV

/-- The Extras Bag read `data.get(('__extras',))`. -/

def getExtras (st : VState) : Option (List (String × String)) :=
  match dataGet st extrasKey with
  | some (.extrasDict m) => some m
  | _ => none

/-- `if not extras or key[0] + '_date' not in extras` (lines 162–163). -/

def extrasAbsent (st : VState) (key : DKey) : Bool :=
  match getExtras st with
  | none => true
  | some m => m.isEmpty || (alLookup m (key.head ++ "_date")).isNone

def pvalOfDate : Option PyDateTime → PVal
  | some d => .dt d
  | none => .pynone

/-- Embeds the per-record validator produced by
`scheming_isodatetime(field, schema)` (lines 147–172).  A truthy
`datetime` instance returns immediately with no mutation; a truthy other
value is parsed by the host date parser, failure raising
`Invalid('Date format incorrect')`; a falsy value with no raw `<key>_date`
extra enforces required-ness on the primary key, otherwise sub-field
assembly runs and its result (with the mutated Extras Bag written back) is
stored at the primary key. -/

def scheming_isodatetime (field : FieldDef) (key : DKey) (st : VState) :
    VState × Option Exn :=
  let value := dataGetD st key
  if pyTruthy value then
    match value with
    | .dt _ => (st, none)
    | .str s =>
      match date_str_to_datetime (some s) with
      | some d => (dataSet st key (.dt (.naive d)), none)
      | none => (st, some (.invalid "Date format incorrect"))
    | _ => (st, some (.invalid "Date format incorrect"))
  else
    if extrasAbsent st key then
      if field.required then
        let r := not_empty key st
        match r.2 with
        | some e => (r.1, some e)
        | none => (dataSet r.1 key .pynone, none)
      else (dataSet st key .pynone, none)
    else
      match getExtras st with
      | some m =>
        let r := validate_date_inputs field key st m
        let st2 := dataSet r.1 extrasKey (.extrasDict r.2.1)
        match r.2.2.2 with
        | some e => (st2, some e)
        | none => (dataSet st2 key (pvalOfDate r.2.2.1), none)
      | none => (st, none)

/-- Embeds the per-record validator produced by
`scheming_isodatetime_tz(field, schema)` (lines 175–202): as the naive
variant, except that a ready `datetime` is converted to canonical UTC and
stored, a string primary value goes through the date+timezone parser, and a
date/time produced by sub-field assembly is converted to canonical UTC. -/

def scheming_isodatetime_tz (field : FieldDef) (key : DKey) (st : VState) :
    VState × Option Exn :=
  let value := dataGetD st key
  if pyTruthy value then
    match value with
    | .dt d => (dataSet st key (.dt (scheming_datetime_to_UTC d)), none)
    | .str s =>
      match date_tz_str_to_datetime s with
      | some d => (dataSet st key (.dt d), none)
      | none => (st, some (.invalid "Date format incorrect"))
    | _ => (st, some (.invalid "Date format incorrect"))
  else
    if extrasAbsent st key then
      if field.required then
        let r := not_empty key st
        match r.2 with
        | some e => (r.1, some e)
        | none => (dataSet r.1 key .pynone, none)
      else (dataSet st key .pynone, none)
    else
      match getExtras st with
      | some m =>
        let r := validate_date_inputs field key st m
        let st2 := dataSet r.1 extrasKey (.extrasDict r.2.1)
        match r.2.2.2 with
        | some e => (st2, some e)
        | none =>
          let date :=
            match r.2.2.1 with
            | some dd => some (scheming_datetime_to_UTC dd)
            | none => none
          (dataSet st2 key (pvalOfDate date), none)
      | none => (st, none)

/-- The `selected` set after the element loop, as the list of recognized
submitted strings. -/

def mcSelected (cv : List String) (l : List PVal) : List String :=
  (mcLoop cv l [] []).1

/-- The list the validator JSON-encodes on a fully recognized submission:
the declared choice values filtered to the selected ones (declared order). -/

def mcStored (cv : List String) (l : List PVal) : List String :=
  cv.filter (fun v => (mcSelected cv l).contains v)

/-- A Python list value. -/

def isPyList (v : PVal) : Prop := ∃ l, v = .pylist l

/-- A concrete callable universe used to witness the compiler theorem. -/

inductive CB where
  | reg (name : String)
  | uni
  | applied (f : CB) (args : List String)
  | bound (f : CB)
deriving DecidableEq, Repr

/-- Callable semantics on `CB`: the registry entry `scheming_required`
carries the `is_a_scheming_validator` marker (as set by the
`@scheming_validator` decorator); binding with `(field, schema)` wraps the
callable. -/

def cbSem : CallableSem CB where
  callArgs := .applied
  isSchemingValidator := fun e =>
    match e with
    | .reg n => n = "scheming_required"
    | _ => false
  callFieldSchema := fun e _ _ => .bound e

/-- A three-name registry for the witness. -/

def cbReg : String → Option CB
  | "scheming_required" => some (.reg "scheming_required")
  | "if_empty_same_as" => some (.reg "if_empty_same_as")
  | "ignore_missing" => some (.reg "ignore_missing")
  | _ => none

/-- The resolution function for the witness registry. -/

def cbResolved (p : String) : CB :=
  if tokenName p = "unicode" then .uni else .reg (tokenName p)

theorem alLookup_alSet_self {K V : Type} [DecidableEq K]
    (l : List (K × V)) (k : K) (v : V) : alLookup (alSet l k v) k = some v := by
  induction l with
  | nil => simp [alSet, alLookup]
  | cons h t ih =>
    obtain ⟨k', v'⟩ := h
    by_cases hk : k' = k <;> simp [alSet, alLookup, hk, ih]

theorem alLookup_alSet_ne {K V : Type} [DecidableEq K]
    (l : List (K × V)) (k k' : K) (v : V) (hne : k' ≠ k) :
    alLookup (alSet l k v) k' = alLookup l k' := by
  induction l with
  | nil => simp [alSet, alLookup, Ne.symm hne]
  | cons hd t ih =>
    obtain ⟨k0, v0⟩ := hd
    by_cases hk : k0 = k
    · subst hk
      simp [alSet, alLookup, Ne.symm hne]
    · simp [alSet, alLookup, hk, ih]

theorem compileToken_eq_ok {E : Type} (C : CallableSem E)
    (reg : String → Option E) (uni : E) (field : FieldDef) (schema : Schema)
    (p : String) (f : E)
    (h : get_validator_or_converter reg uni (tokenName p) = .ok f) :
    compileToken C reg uni field schema p = .ok (tokenCallable C field schema p f) := by
  by_cases hp : parenToken p <;>
    simp [compileToken, tokenCallable, tokenName, hp] at h ⊢ <;>
    simp [h, Except.map]

theorem list_mapM_ok {α β : Type} (f : α → Except String β) (g : α → β) :
    ∀ xs : List α, (∀ x ∈ xs, f x = .ok (g x)) →
      xs.mapM f = .ok (xs.map g) := by
  intro xs
  induction xs with
  | nil => intro _; rfl
  | cons x t ih =>
    intro h
    have hx := h x (by simp)
    have ht := ih fun y hy => h y (by simp [hy])
    rw [List.mapM_cons, hx, ht]
    rfl

/-! ### The decoder inverts the encoder

`jsonLoads (pyJsonDumps l) = some (arr (map str l))`, proved character class
by character class. -/

theorem char_toNat_valid (c : Char) :
    c.toNat < 55296 ∨ (57343 < c.toNat ∧ c.toNat < 1114112) := by
  have h := c.valid
  simpa [UInt32.isValidChar, Nat.isValidChar] using h

theorem hexDigitVal_hexDigitChar (n : Nat) (h : n < 16) :
    hexDigitVal (hexDigitChar n) = some n := by
  interval_cases n <;> decide

theorem hexQuad_hex4 (n : Nat) (h : n < 65536) (rest : List Char) :
    hexQuad (hex4 n ++ rest) = some (n, rest) := by
  have h16 : ∀ m : Nat, m % 16 < 16 := fun m => Nat.mod_lt _ (by norm_num)
  have e1 : hexDigitVal (hexDigitChar (n / 4096 % 16)) = some (n / 4096 % 16) :=
    hexDigitVal_hexDigitChar _ (h16 _)
  have e2 : hexDigitVal (hexDigitChar (n / 256 % 16)) = some (n / 256 % 16) :=
    hexDigitVal_hexDigitChar _ (h16 _)
  have e3 : hexDigitVal (hexDigitChar (n / 16 % 16)) = some (n / 16 % 16) :=
    hexDigitVal_hexDigitChar _ (h16 _)
  have e4 : hexDigitVal (hexDigitChar (n % 16)) = some (n % 16) :=
    hexDigitVal_hexDigitChar _ (h16 _)
  have hn : ((n / 4096 % 16 * 16 + n / 256 % 16) * 16 + n / 16 % 16) * 16 + n % 16 = n := by
    omega
  have hshape : hex4 n ++ rest =
      hexDigitChar (n / 4096 % 16) :: hexDigitChar (n / 256 % 16) ::
        hexDigitChar (n / 16 % 16) :: hexDigitChar (n % 16) :: rest := by
    simp [hex4]
  rw [hshape, hexQuad]
  simp only [e1, e2, e3, e4]
  rw [hn]

theorem escU_hex4 (n : Nat) (rest : List Char) (h : n < 65536)
    (hno : ¬(55296 ≤ n ∧ n < 57344)) :
    escU (hex4 n ++ rest) = some (Char.ofNat n, rest) := by
  unfold escU
  rw [hexQuad_hex4 n h]
  simp only []
  rw [if_neg (by omega), if_neg (by omega)]

theorem escU_surrogatePair (v : Nat) (rest : List Char) (h : v < 1048576) :
    escU (hex4 (55296 + v / 1024) ++
        ('\\' :: 'u' :: (hex4 (56320 + v % 1024) ++ rest))) =
      some (Char.ofNat (65536 + v), rest) := by
  unfold escU
  rw [hexQuad_hex4 _ (by omega)]
  simp only []
  rw [if_pos (by constructor <;> omega)]
  unfold escLowSurrogate
  simp only []
  rw [hexQuad_hex4 _ (by omega)]
  simp only []
  rw [if_pos (by constructor <;> omega)]
  have harith : 65536 + (55296 + v / 1024 - 55296) * 1024 + (56320 + v % 1024 - 56320) =
      65536 + v := by omega
  rw [harith]

theorem escStep_u (t : List Char) : escStep ('u' :: t) = escU t := rfl

theorem parseStrBody_escChar (c : Char) (fuel : Nat) (tail t rest : List Char)
    (ih : parseStrBody fuel tail = some (t, rest)) :
    parseStrBody (fuel + 1) (escChar c ++ tail) = some (c :: t, rest) := by
  have hv := char_toNat_valid c
  by_cases e1 : c = '"'
  · subst e1
    have hred : parseStrBody (fuel + 1) ('\\' :: '"' :: tail) =
        match parseStrBody fuel tail with
        | some (out, rem) => some ('"' :: out, rem)
        | none => none := by rfl
    rw [show escChar '"' ++ tail = '\\' :: '"' :: tail from rfl, hred, ih]
  by_cases e2 : c = '\\'
  · subst e2
    have hred : parseStrBody (fuel + 1) ('\\' :: '\\' :: tail) =
        match parseStrBody fuel tail with
        | some (out, rem) => some ('\\' :: out, rem)
        | none => none := by rfl
    rw [show escChar '\\' ++ tail = '\\' :: '\\' :: tail from rfl, hred, ih]
  by_cases e3 : c = Char.ofNat 8
  · subst e3
    have hred : parseStrBody (fuel + 1) ('\\' :: 'b' :: tail) =
        match parseStrBody fuel tail with
        | some (out, rem) => some (Char.ofNat 8 :: out, rem)
        | none => none := by rfl
    rw [show escChar (Char.ofNat 8) ++ tail = '\\' :: 'b' :: tail from rfl, hred, ih]
  by_cases e4 : c = Char.ofNat 9
  · subst e4
    have hred : parseStrBody (fuel + 1) ('\\' :: 't' :: tail) =
        match parseStrBody fuel tail with
        | some (out, rem) => some (Char.ofNat 9 :: out, rem)
        | none => none := by rfl
    rw [show escChar (Char.ofNat 9) ++ tail = '\\' :: 't' :: tail from rfl, hred, ih]
  by_cases e5 : c = Char.ofNat 10
  · subst e5
    have hred : parseStrBody (fuel + 1) ('\\' :: 'n' :: tail) =
        match parseStrBody fuel tail with
        | some (out, rem) => some (Char.ofNat 10 :: out, rem)
        | none => none := by rfl
    rw [show escChar (Char.ofNat 10) ++ tail = '\\' :: 'n' :: tail from rfl, hred, ih]
  by_cases e6 : c = Char.ofNat 12
  · subst e6
    have hred : parseStrBody (fuel + 1) ('\\' :: 'f' :: tail) =
        match parseStrBody fuel tail with
        | some (out, rem) => some (Char.ofNat 12 :: out, rem)
        | none => none := by rfl
    rw [show escChar (Char.ofNat 12) ++ tail = '\\' :: 'f' :: tail from rfl, hred, ih]
  by_cases e7 : c = Char.ofNat 13
  · subst e7
    have hred : parseStrBody (fuel + 1) ('\\' :: 'r' :: tail) =
        match parseStrBody fuel tail with
        | some (out, rem) => some (Char.ofNat 13 :: out, rem)
        | none => none := by rfl
    rw [show escChar (Char.ofNat 13) ++ tail = '\\' :: 'r' :: tail from rfl, hred, ih]
  by_cases e8 : 32 ≤ c.toNat ∧ c.toNat ≤ 126
  · have hesc : escChar c = [c] := by
      rw [escChar, if_neg e1, if_neg e2, if_neg e3, if_neg e4, if_neg e5,
        if_neg e6, if_neg e7, if_pos e8]
    have hred : parseStrBody (fuel + 1) (c :: tail) =
        match parseStrBody fuel tail with
        | some (out, rem) => some (c :: out, rem)
        | none => none := by
      rw [parseStrBody]
      rw [if_neg e1, if_neg e2, if_neg (by omega : ¬c.toNat < 32)]
    rw [hesc, List.singleton_append, hred, ih]
  by_cases e9 : c.toNat < 65536
  · have hesc : escChar c = '\\' :: 'u' :: hex4 c.toNat := by
      rw [escChar, if_neg e1, if_neg e2, if_neg e3, if_neg e4, if_neg e5,
        if_neg e6, if_neg e7, if_neg e8, if_pos e9]
    have hred : parseStrBody (fuel + 1) ('\\' :: 'u' :: (hex4 c.toNat ++ tail)) =
        match escStep ('u' :: (hex4 c.toNat ++ tail)) with
        | some (ch, rest2) =>
          match parseStrBody fuel rest2 with
          | some (out, rem) => some (ch :: out, rem)
          | none => none
        | none => none := by rfl
    rw [hesc, List.cons_append, List.cons_append, hred, escStep_u,
      escU_hex4 c.toNat tail e9 (by omega)]
    simp only []
    rw [ih, Char.ofNat_toNat]
  · have hesc : escChar c =
        ('\\' :: 'u' :: hex4 (55296 + (c.toNat - 65536) / 1024)) ++
          ('\\' :: 'u' :: hex4 (56320 + (c.toNat - 65536) % 1024)) := by
      rw [escChar, if_neg e1, if_neg e2, if_neg e3, if_neg e4, if_neg e5,
        if_neg e6, if_neg e7, if_neg e8, if_neg e9]
    have hshape : escChar c ++ tail =
        '\\' :: 'u' :: (hex4 (55296 + (c.toNat - 65536) / 1024) ++
          ('\\' :: 'u' :: (hex4 (56320 + (c.toNat - 65536) % 1024) ++ tail))) := by
      rw [hesc]; simp
    have hred : parseStrBody (fuel + 1)
        ('\\' :: 'u' :: (hex4 (55296 + (c.toNat - 65536) / 1024) ++
          ('\\' :: 'u' :: (hex4 (56320 + (c.toNat - 65536) % 1024) ++ tail)))) =
        match escStep ('u' :: (hex4 (55296 + (c.toNat - 65536) / 1024) ++
            ('\\' :: 'u' :: (hex4 (56320 + (c.toNat - 65536) % 1024) ++ tail)))) with
        | some (ch, rest2) =>
          match parseStrBody fuel rest2 with
          | some (out, rem) => some (ch :: out, rem)
          | none => none
        | none => none := by
      rw [parseStrBody]
      rw [if_neg (by decide), if_pos rfl]
    rw [hshape, hred, escStep_u, escU_surrogatePair (c.toNat - 65536) tail (by omega)]
    simp only []
    rw [ih]
    have h65 : 65536 + (c.toNat - 65536) = c.toNat := by omega
    rw [h65, Char.ofNat_toNat]

theorem parseStrBody_escBody (s : List Char) (rest : List Char) :
    ∀ fuel, s.length + 1 ≤ fuel →
      parseStrBody fuel (escBody s ++ '"' :: rest) = some (s, rest) := by
  induction s with
  | nil =>
    intro fuel hf
    obtain ⟨f, rfl⟩ : ∃ f, fuel = f + 1 := ⟨fuel - 1, by omega⟩
    have h0 : escBody [] = [] := rfl
    rw [h0, List.nil_append, parseStrBody, if_pos rfl]
  | cons c tl ih =>
    intro fuel hf
    obtain ⟨f, rfl⟩ : ∃ f, fuel = f + 1 := ⟨fuel - 1, by omega⟩
    have hstep : escBody (c :: tl) = escChar c ++ escBody tl := by
      simp [escBody]
    rw [hstep, List.append_assoc]
    exact parseStrBody_escChar c f _ tl rest (ih f (by simpa using Nat.lt_succ_iff.mp hf))

theorem escChar_length_pos (c : Char) : 1 ≤ (escChar c).length := by
  unfold escChar
  repeat' split
  all_goals simp [hex4]

theorem escBody_length_ge (s : List Char) : s.length ≤ (escBody s).length := by
  induction s with
  | nil => simp [escBody]
  | cons c tl ih =>
    have hstep : escBody (c :: tl) = escChar c ++ escBody tl := by
      simp [escBody]
    rw [hstep]
    have := escChar_length_pos c
    simp only [List.length_append, List.length_cons]
    omega

theorem parseValue_quoted (fuel : Nat) (s : String) (rest : List Char) :
    parseValue (fuel + 1) (quotedChars s ++ rest) = some (.str s, rest) := by
  have hshape : quotedChars s ++ rest = '"' :: (escBody s.data ++ ('"' :: rest)) := by
    simp [quotedChars]
  have hred : parseValue (fuel + 1) ('"' :: (escBody s.data ++ ('"' :: rest))) =
      match parseStrBody ((escBody s.data ++ ('"' :: rest)).length + 1)
          (escBody s.data ++ ('"' :: rest)) with
      | some (body, rem) => some (.str ⟨body⟩, rem)
      | none => none := by rfl
  have hfuel : s.data.length + 1 ≤ (escBody s.data ++ ('"' :: rest)).length + 1 := by
    have := escBody_length_ge s.data
    simp only [List.length_append, List.length_cons]
    omega
  rw [hshape, hred, parseStrBody_escBody s.data rest _ hfuel]

theorem skipWs_notWs (c : Char) (h : jsonWsChar c = false) (cs : List Char) :
    skipWs (c :: cs) = c :: cs := by
  rw [skipWs]
  simp [h]

theorem skipWs_ws (c : Char) (h : jsonWsChar c = true) (cs : List Char) :
    skipWs (c :: cs) = skipWs cs := by
  rw [skipWs]
  simp [h]

theorem dumpsElems_length (l : List String) :
    2 * l.length ≤ (dumpsElems l).length := by
  induction l with
  | nil => simp [dumpsElems]
  | cons x t ih =>
    cases t with
    | nil => simp [dumpsElems, quotedChars]
    | cons y t2 =>
      have hd : dumpsElems (x :: y :: t2) =
          quotedChars x ++ ',' :: ' ' :: dumpsElems (y :: t2) := rfl
      rw [hd]
      simp only [List.length_append, List.length_cons, List.length_map, quotedChars] at ih ⊢
      omega

theorem parseElems_dumps (l : List String) :
    ∀ (x : String) (rest : List Char) (fuel : Nat),
      2 * l.length + 2 ≤ fuel →
      parseElems fuel (dumpsElems (x :: l) ++ (']' :: rest)) =
        some ((x :: l).map PVal.str, rest) := by
  induction l with
  | nil =>
    intro x rest fuel hf
    obtain ⟨f2, rfl⟩ : ∃ f2, fuel = f2 + 1 + 1 := ⟨fuel - 2, by omega⟩
    have hd : dumpsElems [x] ++ (']' :: rest) = quotedChars x ++ (']' :: rest) := rfl
    rw [hd, parseElems, parseValue_quoted f2 x (']' :: rest)]
    rfl
  | cons y l2 ih =>
    intro x rest fuel hf
    obtain ⟨f2, rfl⟩ : ∃ f2, fuel = f2 + 1 + 1 := ⟨fuel - 2, by omega⟩
    obtain ⟨T, hT⟩ : ∃ T, dumpsElems (y :: l2) = '"' :: T := by
      cases l2 <;> exact ⟨_, rfl⟩
    have hshape : dumpsElems (x :: y :: l2) ++ (']' :: rest) =
        quotedChars x ++ (',' :: ' ' :: (dumpsElems (y :: l2) ++ (']' :: rest))) := by
      show (quotedChars x ++ ',' :: ' ' :: dumpsElems (y :: l2)) ++ (']' :: rest) = _
      simp [List.append_assoc]
    have hskip : skipWs (' ' :: (dumpsElems (y :: l2) ++ (']' :: rest))) =
        dumpsElems (y :: l2) ++ (']' :: rest) := by
      rw [skipWs_ws _ (by decide), hT, List.cons_append, skipWs_notWs _ (by decide)]
    have hih := ih y rest (f2 + 1) (by simp only [List.length_cons] at hf ⊢; omega)
    rw [hshape, parseElems, parseValue_quoted f2 x _]
    simp only []
    rw [skipWs_notWs _ (by decide)]
    simp only []
    rw [hskip, hih]
    rfl

theorem jsonLoads_pyJsonDumps (l : List String) :
    jsonLoads (pyJsonDumps l) = some (.pylist (l.map PVal.str)) := by
  cases l with
  | nil => rfl
  | cons x l2 =>
    obtain ⟨T, hT⟩ : ∃ T, dumpsElems (x :: l2) = '"' :: T := by
      cases l2 <;> exact ⟨_, rfl⟩
    have hlen := dumpsElems_length (x :: l2)
    have hskip : skipWs (pyJsonDumps (x :: l2)).data =
        '[' :: (dumpsElems (x :: l2) ++ [']']) := by
      show skipWs ('[' :: (dumpsElems (x :: l2) ++ [']'])) = _
      exact skipWs_notWs _ (by decide) _
    have hF : 2 * ('[' :: (dumpsElems (x :: l2) ++ [']'])).length + 2 =
        (2 * ('[' :: (dumpsElems (x :: l2) ++ [']'])).length + 1) + 1 := rfl
    have hred : parseValue ((2 * ('[' :: (dumpsElems (x :: l2) ++ [']'])).length + 1) + 1)
        ('[' :: (dumpsElems (x :: l2) ++ [']'])) =
        match skipWs (dumpsElems (x :: l2) ++ [']']) with
        | ']' :: rem => some (.pylist [], rem)
        | rest' =>
          match parseElems (2 * ('[' :: (dumpsElems (x :: l2) ++ [']'])).length + 1) rest' with
          | some (es, rem) => some (.pylist es, rem)
          | none => none := by rfl
    have hsk2 : skipWs (dumpsElems (x :: l2) ++ [']']) =
        dumpsElems (x :: l2) ++ [']'] := by
      rw [hT, List.cons_append, skipWs_notWs _ (by decide)]
    have hD : dumpsElems (x :: l2) ++ [']'] = '"' :: (T ++ [']']) := by
      rw [hT]; rfl
    have hbound : 2 * l2.length + 2 ≤
        2 * ('[' :: (dumpsElems (x :: l2) ++ [']'])).length + 1 := by
      simp only [List.length_cons, List.length_append] at hlen ⊢
      omega
    unfold jsonLoads
    rw [hskip, hF, hred, hsk2]
    have hrow : (match dumpsElems (x :: l2) ++ [']'] with
        | ']' :: rem => some (PVal.pylist [], rem)
        | rest' =>
          match parseElems (2 * ('[' :: (dumpsElems (x :: l2) ++ [']'])).length + 1) rest' with
          | some (es, rem) => some (PVal.pylist es, rem)
          | none => none) =
        match parseElems (2 * ('[' :: (dumpsElems (x :: l2) ++ [']'])).length + 1)
            (dumpsElems (x :: l2) ++ [']']) with
        | some (es, rem) => some (PVal.pylist es, rem)
        | none => none := by
      rw [hD]
      rfl
    rw [hrow, parseElems_dumps l2 x [] _ hbound]
    rfl

/-! ## Properties of the choice-set coercion -/

theorem mcLoop_snd (cv : List String) (elems : List PVal) :
    ∀ sel errs, (mcLoop cv elems sel errs).2 =
      errs ++ (elems.filter (fun e => !mcRecognized cv e)).map unexpectedMsg := by
  induction elems with
  | nil => intro sel errs; simp [mcLoop]
  | cons e rest ih =>
    intro sel errs
    cases h : mcRecognized cv e <;> simp [mcLoop, h, ih]

theorem mcLoop_fst_mem (cv : List String) (elems : List PVal) :
    ∀ sel errs x, x ∈ (mcLoop cv elems sel errs).1 ↔
      x ∈ sel ∨ ∃ e, e ∈ elems ∧ mcRecognized cv e = true ∧ pyStrOf e = x := by
  induction elems with
  | nil => intro sel errs x; simp [mcLoop]
  | cons e rest ih =>
    intro sel errs x
    cases h : mcRecognized cv e
    · rw [mcLoop]
      simp only [h]
      rw [if_neg (by simp), ih]
      constructor
      · rintro (hx | hx)
        · exact Or.inl hx
        · obtain ⟨e2, he2, hrec, hstr⟩ := hx
          exact Or.inr ⟨e2, by simp [he2], hrec, hstr⟩
      · rintro (hx | hx)
        · exact Or.inl hx
        · obtain ⟨e2, he2, hrec, hstr⟩ := hx
          rcases List.mem_cons.mp he2 with rfl | hmem
          · rw [h] at hrec; cases hrec
          · exact Or.inr ⟨e2, hmem, hrec, hstr⟩
    · rw [mcLoop]
      simp only [h]
      rw [if_pos trivial, ih]
      constructor
      · rintro (hx | hx)
        · rcases List.mem_cons.mp hx with rfl | hmem
          · exact Or.inr ⟨e, by simp, h, rfl⟩
          · exact Or.inl hmem
        · obtain ⟨e2, he2, hrec, hstr⟩ := hx
          exact Or.inr ⟨e2, by simp [he2], hrec, hstr⟩
      · rintro (hx | hx)
        · exact Or.inl (by simp [hx])
        · obtain ⟨e2, he2, hrec, hstr⟩ := hx
          rcases List.mem_cons.mp he2 with rfl | hmem
          · exact Or.inl (by simp [hstr.symm])
          · exact Or.inr ⟨e2, hmem, hrec, hstr⟩

theorem mcLoop_fst_empty_iff (cv : List String) (elems : List PVal)
    (errs : List String) :
    (mcLoop cv elems [] errs).1 = [] ↔
      ∀ e ∈ elems, mcRecognized cv e = false := by
  constructor
  · intro h e he
    by_contra hrec
    have hmem : pyStrOf e ∈ (mcLoop cv elems [] errs).1 := by
      rw [mcLoop_fst_mem]
      exact Or.inr ⟨e, he, by simpa using hrec, rfl⟩
    rw [h] at hmem
    cases hmem
  · intro h
    by_contra hne
    obtain ⟨x, hx⟩ := List.exists_mem_of_ne_nil _ hne
    rw [mcLoop_fst_mem] at hx
    rcases hx with hx | ⟨e, he, hrec, _⟩
    · cases hx
    · rw [h e he] at hrec; cases hrec

/-- C5: when the error accumulator entry for the key is already non-empty,
the `scheming_multiple_choice` per-record validator is a no-op: it appends
no error and leaves the record-data entry unchanged. -/

theorem scheming_multiple_choice_short_circuits (field : FieldDef)
    (value : PVal) (errs : List String) (h : errs ≠ []) :
    scheming_multiple_choice field value errs = (value, errs) := by
  unfold scheming_multiple_choice
  rw [if_pos (by simpa using h)]

/-- Witness for C5 at a concrete prior error. -/

theorem scheming_multiple_choice_short_circuits_witness :
    (["prior"] : List String) ≠ [] ∧
      scheming_multiple_choice ⟨[⟨"a"⟩], false⟩ (.str "a") ["prior"] =
        (.str "a", ["prior"]) :=
  ⟨by simp, scheming_multiple_choice_short_circuits ⟨[⟨"a"⟩], false⟩ (.str "a")
    ["prior"] (by simp)⟩

theorem unexpectedMsg_ne_select (e : PVal) :
    unexpectedMsg e ≠ "Select at least one" := by
  intro h
  have hlen := congrArg String.length h
  rw [unexpectedMsg] at hlen
  rw [String.length_append, String.length_append] at hlen
  have h1 : ("unexpected choice \"" : String).length = 19 := by decide
  have h2 : ("\"" : String).length = 1 := by decide
  have h3 : ("Select at least one" : String).length = 19 := by decide
  rw [h1, h2, h3] at hlen
  omega

/-- C6: on a required choice field, an absent submission (the `missing`
sentinel) stores the empty JSON array and records exactly the one error
"Select at least one"; a non-empty submission consisting only of
unrecognized elements records one unexpected-choice error per element and
no required-error. -/

theorem scheming_multiple_choice_required (field : FieldDef)
    (hreq : field.required = true) :
    scheming_multiple_choice field .missingV [] =
      (.str "[]", ["Select at least one"]) ∧
    ∀ l : List PVal, l ≠ [] →
      (∀ e ∈ l, mcRecognized (field.choices.map (fun c => c.value)) e = false) →
      scheming_multiple_choice field (.pylist l) [] =
        (.pylist l, l.map unexpectedMsg) ∧
      "Select at least one" ∉ l.map unexpectedMsg := by
  constructor
  · unfold scheming_multiple_choice
    rw [if_neg (by simp)]
    simp only [mcElems, mcLoop, hreq]
    have hfilter : (field.choices.map (fun c => c.value)).filter
        (fun v => List.contains [] v) = [] := by
      simp [List.filter_eq_nil_iff]
    rw [hfilter]
    simp [pyJsonDumps, dumpsElems]
  · intro l hne hall
    have hsnd := mcLoop_snd (field.choices.map (fun c => c.value)) l [] []
    have hfilter : l.filter
        (fun e => !mcRecognized (field.choices.map (fun c => c.value)) e) = l := by
      rw [List.filter_eq_self]
      intro e he
      simp [hall e he]
    rw [hfilter] at hsnd
    have hmapne : l.map unexpectedMsg ≠ [] := by
      simpa using hne
    constructor
    · unfold scheming_multiple_choice
      rw [if_neg (by simp)]
      simp only [mcElems]
      rw [if_neg (by simp [hsnd, hmapne])]
      simp [hsnd]
    · intro hmem
      obtain ⟨e, _, heq⟩ := List.mem_map.mp hmem
      exact unexpectedMsg_ne_select e heq

/-- Witness for C6 at a two-choice required field and the all-invalid
submission `["x"]`. -/

theorem scheming_multiple_choice_required_witness :
    (⟨[⟨"a"⟩, ⟨"b"⟩], true⟩ : FieldDef).required = true ∧
      scheming_multiple_choice ⟨[⟨"a"⟩, ⟨"b"⟩], true⟩ .missingV [] =
        (.str "[]", ["Select at least one"]) ∧
      scheming_multiple_choice ⟨[⟨"a"⟩, ⟨"b"⟩], true⟩ (.pylist [.str "x"]) [] =
        (.pylist [.str "x"], ["unexpected choice \"x\""]) ∧
      "Select at least one" ∉ ["unexpected choice \"x\""] := by
  have h := scheming_multiple_choice_required ⟨[⟨"a"⟩, ⟨"b"⟩], true⟩ rfl
  have h2 := h.2 [.str "x"] (by simp) (by intro e he; simp at he; subst he; rfl)
  refine ⟨rfl, h.1, ?_, ?_⟩
  · exact h2.1
  · exact h2.2

theorem mc_value_all_recognized (field : FieldDef) (v0 : PVal) (l : List PVal)
    (h0 : mcElems v0 = some l)
    (hall : ∀ e ∈ l, mcRecognized (field.choices.map (fun c => c.value)) e = true) :
    (scheming_multiple_choice field v0 []).1 =
      .str (pyJsonDumps (mcStored (field.choices.map (fun c => c.value)) l)) := by
  unfold scheming_multiple_choice
  rw [if_neg (by simp), h0]
  have hsnd := mcLoop_snd (field.choices.map (fun c => c.value)) l [] []
  have hfilter : l.filter
      (fun e => !mcRecognized (field.choices.map (fun c => c.value)) e) = [] := by
    rw [List.filter_eq_nil_iff]
    intro e he
    simp [hall e he]
  rw [hfilter] at hsnd
  simp only [List.map_nil, List.append_nil] at hsnd
  simp only []
  rw [hsnd]
  rw [if_pos List.isEmpty_nil]
  rfl

theorem mcRecognized_shape (cv : List String) (e : PVal)
    (h : mcRecognized cv e = true) :
    ∃ s, e = .str s ∧ pyStrOf e = s ∧ cv.contains s = true := by
  cases e <;> simp [mcRecognized] at h
  exact ⟨_, rfl, rfl, by simpa [mcRecognized] using h⟩

theorem mcStored_mem (cv : List String) (l : List PVal) (v : String) :
    v ∈ mcStored cv l ↔
      v ∈ cv ∧ ∃ e, e ∈ l ∧ mcRecognized cv e = true ∧ pyStrOf e = v := by
  unfold mcStored mcSelected
  rw [List.mem_filter]
  constructor
  · rintro ⟨hcv, hsel⟩
    refine ⟨hcv, ?_⟩
    have hmem : v ∈ (mcLoop cv l [] []).1 := List.elem_iff.mp hsel
    rw [mcLoop_fst_mem] at hmem
    rcases hmem with h | h
    · cases h
    · exact h
  · rintro ⟨hcv, hex⟩
    refine ⟨hcv, List.elem_iff.mpr ?_⟩
    rw [mcLoop_fst_mem]
    exact Or.inr hex

theorem mcStored_str_mem (cv : List String) (l : List PVal) (v : String) :
    v ∈ mcStored cv l ↔ v ∈ cv ∧ PVal.str v ∈ l := by
  rw [mcStored_mem]
  constructor
  · rintro ⟨hcv, e, he, hrec, hstr⟩
    obtain ⟨s, rfl, hps, _⟩ := mcRecognized_shape cv e hrec
    rw [hps] at hstr
    subst hstr
    exact ⟨hcv, he⟩
  · rintro ⟨hcv, hmem⟩
    exact ⟨hcv, .str v, hmem, by simpa [mcRecognized] using List.elem_iff.mpr hcv, rfl⟩

theorem mcStored_idem (cv : List String) (l : List PVal) :
    mcStored cv ((mcStored cv l).map PVal.str) = mcStored cv l := by
  have hcongr : ∀ v ∈ cv,
      ((mcSelected cv ((mcStored cv l).map PVal.str)).contains v) =
        ((mcSelected cv l).contains v) := by
    intro v hv
    apply Bool.eq_iff_iff.mpr
    constructor
    · intro hc
      have hmem : v ∈ (mcLoop cv ((mcStored cv l).map PVal.str) [] []).1 :=
        List.elem_iff.mp hc
      rw [mcLoop_fst_mem] at hmem
      rcases hmem with h | ⟨e, he, hrec, hstr⟩
      · cases h
      · obtain ⟨s, rfl, hps, _⟩ := mcRecognized_shape cv e hrec
        rw [hps] at hstr
        subst hstr
        obtain ⟨w, hw, heq⟩ := List.mem_map.mp he
        injection heq with hws
        subst hws
        exact (List.mem_filter.mp hw).2
    · intro hc
      have hmem : v ∈ mcStored cv l :=
        List.mem_filter.mpr ⟨hv, hc⟩
      apply List.elem_iff.mpr
      show v ∈ (mcLoop cv ((mcStored cv l).map PVal.str) [] []).1
      rw [mcLoop_fst_mem]
      exact Or.inr ⟨.str v, List.mem_map_of_mem _ hmem,
        by simpa [mcRecognized] using List.elem_iff.mpr hv, rfl⟩
  unfold mcStored
  exact List.filter_congr hcongr

/-- C2 counterexample: submitting `["a", "a", "c"]` against declared choices
`["a", "b"]` does **not** store a JSON-array string.  One unexpected-choice
error is appended for `"c"`, and because the error list is then non-empty,
the `data[key] = json.dumps(...)` assignment never runs: the record-data
entry keeps the raw submitted list, so the claim's stored JSON string (which
would be `["a"]`) is absent. -/

theorem scheming_multiple_choice_unknown_counterexample :
    (scheming_multiple_choice ⟨[⟨"a"⟩, ⟨"b"⟩], false⟩
        (.pylist [.str "a", .str "a", .str "c"]) []).2 =
      ["unexpected choice \"c\""] ∧
    (scheming_multiple_choice ⟨[⟨"a"⟩, ⟨"b"⟩], false⟩
        (.pylist [.str "a", .str "a", .str "c"]) []).1 =
      .pylist [.str "a", .str "a", .str "c"] ∧
    (scheming_multiple_choice ⟨[⟨"a"⟩, ⟨"b"⟩], false⟩
        (.pylist [.str "a", .str "a", .str "c"]) []).1 ≠
      .str (pyJsonDumps ["a"]) := by
  refine ⟨rfl, rfl, fun h => ?_⟩
  exact PVal.noConfusion h

/-- C2 amended: on a submission containing unrecognized entries the
validator appends exactly one "unexpected choice" error per unrecognized
element, in submission order, and leaves the record-data entry unchanged
(nothing is stored); the JSON-array normalization — each recognized value
at most once for distinct declared values, ordered by declared choice order
— is stored (only) for the recognized part of the submission, duplicates
and submission order notwithstanding. -/

theorem scheming_multiple_choice_unknown_entries (field : FieldDef)
    (l : List PVal)
    (hu : ∃ e, e ∈ l ∧
      mcRecognized (field.choices.map (fun c => c.value)) e = false) :
    (scheming_multiple_choice field (.pylist l) []).1 = .pylist l ∧
    (scheming_multiple_choice field (.pylist l) []).2 =
      (l.filter (fun e =>
        !mcRecognized (field.choices.map (fun c => c.value)) e)).map
        unexpectedMsg ∧
    ∃ stored : List String,
      (scheming_multiple_choice field
          (.pylist (l.filter (fun e =>
            mcRecognized (field.choices.map (fun c => c.value)) e))) []).1 =
        .str (pyJsonDumps stored) ∧
      stored.Sublist (field.choices.map (fun c => c.value)) ∧
      (∀ v, v ∈ stored ↔
        (v ∈ field.choices.map (fun c => c.value) ∧ PVal.str v ∈ l)) ∧
      ((field.choices.map (fun c => c.value)).Nodup →
        ∀ v, stored.count v ≤ 1) := by
  obtain ⟨e0, he0, hrec0⟩ := hu
  have hsnd := mcLoop_snd (field.choices.map (fun c => c.value)) l [] []
  have hne : (l.filter (fun e =>
      !mcRecognized (field.choices.map (fun c => c.value)) e)).map
      unexpectedMsg ≠ [] := by
    have : e0 ∈ l.filter (fun e =>
        !mcRecognized (field.choices.map (fun c => c.value)) e) :=
      List.mem_filter.mpr ⟨he0, by simp [hrec0]⟩
    intro hcon
    rw [List.map_eq_nil_iff] at hcon
    rw [hcon] at this
    cases this
  have hrun : scheming_multiple_choice field (.pylist l) [] =
      (.pylist l,
        (l.filter (fun e =>
          !mcRecognized (field.choices.map (fun c => c.value)) e)).map
          unexpectedMsg) := by
    unfold scheming_multiple_choice
    rw [if_neg (by simp)]
    simp only [mcElems]
    rw [hsnd]
    rw [if_neg (by simpa using hne)]
    rw [List.nil_append]
  refine ⟨by rw [hrun], by rw [hrun], ?_⟩
  set lr := l.filter (fun e =>
    mcRecognized (field.choices.map (fun c => c.value)) e) with hlr
  have hallr : ∀ e ∈ lr,
      mcRecognized (field.choices.map (fun c => c.value)) e = true := by
    intro e he
    exact (List.mem_filter.mp he).2
  refine ⟨mcStored (field.choices.map (fun c => c.value)) lr,
    mc_value_all_recognized field (.pylist lr) lr rfl hallr, ?_, ?_, ?_⟩
  · exact List.filter_sublist _
  · intro v
    rw [mcStored_str_mem]
    constructor
    · rintro ⟨hcv, hmem⟩
      exact ⟨hcv, (List.mem_filter.mp hmem).1⟩
    · rintro ⟨hcv, hmem⟩
      refine ⟨hcv, List.mem_filter.mpr ⟨hmem, ?_⟩⟩
      simpa [mcRecognized] using List.elem_iff.mpr hcv
  · intro hnodup v
    exact List.nodup_iff_count_le_one.mp (hnodup.filter _) v

/-- Witness for the amended C2 at choices `["a", "b"]` and submission
`["a", "a", "c"]`. -/

theorem scheming_multiple_choice_unknown_entries_witness :
    (scheming_multiple_choice ⟨[⟨"a"⟩, ⟨"b"⟩], false⟩
        (.pylist [.str "a", .str "a", .str "c"]) []).1 =
      .pylist [.str "a", .str "a", .str "c"] ∧
    (scheming_multiple_choice ⟨[⟨"a"⟩, ⟨"b"⟩], false⟩
        (.pylist [.str "a", .str "a", .str "c"]) []).2 =
      ["unexpected choice \"c\""] := by
  have h := scheming_multiple_choice_unknown_entries ⟨[⟨"a"⟩, ⟨"b"⟩], false⟩
    [.str "a", .str "a", .str "c"] ⟨.str "c", by simp, rfl⟩
  refine ⟨h.1, ?_⟩
  rw [h.2.1]
  rfl

/-- C7: decoding a value stored by `scheming_multiple_choice` with
`scheming_multiple_choice_output` and re-submitting the decoded list yields
the identical JSON-array string. -/

theorem scheming_multiple_choice_idempotent (field : FieldDef) (v0 : PVal)
    (elems : List PVal) (h0 : mcElems v0 = some elems)
    (hall : ∀ e ∈ elems,
      mcRecognized (field.choices.map (fun c => c.value)) e = true) :
    ∃ stored : List String,
      (scheming_multiple_choice field v0 []).1 = .str (pyJsonDumps stored) ∧
      scheming_multiple_choice_output (.str (pyJsonDumps stored)) =
        .ok (.pylist (stored.map PVal.str)) ∧
      (scheming_multiple_choice field (.pylist (stored.map PVal.str)) []).1 =
        .str (pyJsonDumps stored) := by
  refine ⟨mcStored (field.choices.map (fun c => c.value)) elems,
    mc_value_all_recognized field v0 elems h0 hall, ?_, ?_⟩
  · unfold scheming_multiple_choice_output
    simp only []
    rw [jsonLoads_pyJsonDumps]
  · have hall2 : ∀ e ∈ (mcStored (field.choices.map (fun c => c.value))
        elems).map PVal.str,
        mcRecognized (field.choices.map (fun c => c.value)) e = true := by
      intro e he
      obtain ⟨w, hw, rfl⟩ := List.mem_map.mp he
      have hcv := ((mcStored_str_mem _ elems w).mp hw).1
      simpa [mcRecognized] using List.elem_iff.mpr hcv
    rw [mc_value_all_recognized field
      (.pylist ((mcStored (field.choices.map (fun c => c.value)) elems).map
        PVal.str)) _ rfl hall2, mcStored_idem]

/-- Witness for C7 at choices `["a", "b"]` and the duplicated, out-of-order
submission `["b", "a", "a"]`. -/

theorem scheming_multiple_choice_idempotent_witness :
    ∃ stored : List String,
      (scheming_multiple_choice ⟨[⟨"a"⟩, ⟨"b"⟩], false⟩
          (.pylist [.str "b", .str "a", .str "a"]) []).1 =
        .str (pyJsonDumps stored) ∧
      scheming_multiple_choice_output (.str (pyJsonDumps stored)) =
        .ok (.pylist (stored.map PVal.str)) ∧
      (scheming_multiple_choice ⟨[⟨"a"⟩, ⟨"b"⟩], false⟩
          (.pylist (stored.map PVal.str)) []).1 =
        .str (pyJsonDumps stored) :=
  scheming_multiple_choice_idempotent ⟨[⟨"a"⟩, ⟨"b"⟩], false⟩
    (.pylist [.str "b", .str "a", .str "a"]) [.str "b", .str "a", .str "a"]
    rfl (by
      intro e he
      simp only [List.mem_cons, List.not_mem_nil, or_false] at he
      rcases he with rfl | rfl | rfl <;> rfl)

/-- C10: `scheming_multiple_choice_output` returns the decoded value
unchanged for any string that parses as JSON (so a list exactly when the
document is an array), falls back to the one-element list only when
`json.loads` fails, and produces a list only in the three enumerated ways:
a list input passed through, a decoded JSON array, or the fallback. -/

theorem scheming_multiple_choice_output_cases (v0 r : PVal)
    (h : scheming_multiple_choice_output v0 = .ok r) :
    (∀ s v, v0 = .str s → jsonLoads s = some v → r = v) ∧
    (∀ s, v0 = .str s → jsonLoads s = none → r = .pylist [.str s]) ∧
    (isPyList r →
      isPyList v0 ∨
      (∃ s elems, v0 = .str s ∧ jsonLoads s = some (.pylist elems) ∧
        r = .pylist elems) ∨
      (∃ s, v0 = .str s ∧ jsonLoads s = none ∧ r = .pylist [.str s])) := by
  refine ⟨?_, ?_, ?_⟩
  · rintro s v rfl hj
    rw [scheming_multiple_choice_output, hj] at h
    exact (Except.ok.inj h).symm
  · rintro s rfl hj
    rw [scheming_multiple_choice_output, hj] at h
    exact (Except.ok.inj h).symm
  · rintro ⟨lr, rfl⟩
    cases v0 with
    | pylist l =>
      exact Or.inl ⟨l, rfl⟩
    | str s =>
      cases hj : jsonLoads s with
      | some v =>
        rw [scheming_multiple_choice_output, hj] at h
        refine Or.inr (Or.inl ⟨s, lr, rfl, ?_, rfl⟩)
        rw [hj, Except.ok.inj h]
      | none =>
        rw [scheming_multiple_choice_output, hj] at h
        exact Or.inr (Or.inr ⟨s, rfl, hj, (Except.ok.inj h).symm⟩)
    | pynone => exact absurd h (by simp [scheming_multiple_choice_output])
    | missingV => exact absurd h (by simp [scheming_multiple_choice_output])
    | pybool b => exact absurd h (by simp [scheming_multiple_choice_output])
    | pynum lex => exact absurd h (by simp [scheming_multiple_choice_output])
    | pydict f => exact absurd h (by simp [scheming_multiple_choice_output])
    | dt d => exact absurd h (by simp [scheming_multiple_choice_output])
    | extrasDict m => exact absurd h (by simp [scheming_multiple_choice_output])

/-- Witness for C10 at the stored string `"17"`, a JSON number: the decoded
non-list value is returned unchanged. -/

theorem scheming_multiple_choice_output_cases_witness :
    (∀ s v, (PVal.str "17") = .str s → jsonLoads s = some v →
      (PVal.pynum "17") = v) ∧
    (∀ s, (PVal.str "17") = .str s → jsonLoads s = none →
      (PVal.pynum "17") = .pylist [.str s]) ∧
    (isPyList (.pynum "17") →
      isPyList (.str "17") ∨
      (∃ s elems, (PVal.str "17") = .str s ∧
        jsonLoads s = some (.pylist elems) ∧ (PVal.pynum "17") = .pylist elems) ∨
      (∃ s, (PVal.str "17") = .str s ∧ jsonLoads s = none ∧
        (PVal.pynum "17") = .pylist [.str s])) :=
  scheming_multiple_choice_output_cases (.str "17") (.pynum "17") rfl

/-! ## Properties of the validator-string compiler -/

/-- C1: when every token of the spec string resolves in the registry,
`validators_from_string` returns exactly one callable per token, in token
order: a parenthesized token contributes the resolved callable invoked with
the comma-split literal argument strings, and a callable marked field-aware
is then invoked with `(field, schema)` before being appended. -/

theorem validators_from_string_tokens {E : Type} (C : CallableSem E)
    (reg : String → Option E) (uni : E) (field : FieldDef) (schema : Schema)
    (s : String) (resolved : String → E)
    (h : ∀ p ∈ pySplitWs s,
      get_validator_or_converter reg uni (tokenName p) = .ok (resolved p)) :
    validators_from_string C reg uni s field schema =
      .ok ((pySplitWs s).map fun p => tokenCallable C field schema p (resolved p)) ∧
    ((pySplitWs s).map fun p =>
      tokenCallable C field schema p (resolved p)).length =
      (pySplitWs s).length := by
  refine ⟨?_, by simp⟩
  exact list_mapM_ok _ _ _ fun p hp =>
    compileToken_eq_ok C reg uni field schema p (resolved p) (h p hp)

/-- Witness for C1 on `"scheming_required if_empty_same_as(name) unicode"`:
three tokens, one plain field-aware name, one parenthesized call, and the
`unicode` builtin. -/

theorem validators_from_string_tokens_witness :
    validators_from_string cbSem cbReg CB.uni
        "scheming_required if_empty_same_as(name) unicode" ⟨[], false⟩ () =
      .ok ((pySplitWs "scheming_required if_empty_same_as(name) unicode").map
        fun p => tokenCallable cbSem ⟨[], false⟩ () p (cbResolved p)) ∧
    ((pySplitWs "scheming_required if_empty_same_as(name) unicode").map
      fun p => tokenCallable cbSem ⟨[], false⟩ () p (cbResolved p)).length =
      (pySplitWs "scheming_required if_empty_same_as(name) unicode").length :=
  validators_from_string_tokens cbSem cbReg CB.uni ⟨[], false⟩ ()
    "scheming_required if_empty_same_as(name) unicode" cbResolved (by
      intro p hp
      have hl : pySplitWs "scheming_required if_empty_same_as(name) unicode" =
          ["scheming_required", "if_empty_same_as(name)", "unicode"] := rfl
      rw [hl] at hp
      simp only [List.mem_cons, List.not_mem_nil, or_false] at hp
      rcases hp with rfl | rfl | rfl <;> rfl)

/-! ## Properties of the date/time validators -/

/-- C3: with sub-inputs `date="2020-01-15"`, `time=""`, sub-field assembly
composes the datetime 2020-01-15 with zero time component and appends no
error on any sub-key; with `date=""`, `time="10:00"`, the error "Date is
required when a time is provided" is appended on the `_date` sub-key. -/

theorem validate_date_inputs_examples :
    ((validate_date_inputs ⟨[], false⟩ ⟨"f", []⟩ ⟨[], []⟩
        [("f_date", "2020-01-15"), ("f_time", "")]).2.2.1 =
      some (.naive ⟨2020, 1, 15, 0, 0, 0⟩) ∧
     errGet (validate_date_inputs ⟨[], false⟩ ⟨"f", []⟩ ⟨[], []⟩
        [("f_date", "2020-01-15"), ("f_time", "")]).1 ⟨"f_date", []⟩ = [] ∧
     errGet (validate_date_inputs ⟨[], false⟩ ⟨"f", []⟩ ⟨[], []⟩
        [("f_date", "2020-01-15"), ("f_time", "")]).1 ⟨"f_time", []⟩ = [] ∧
     errGet (validate_date_inputs ⟨[], false⟩ ⟨"f", []⟩ ⟨[], []⟩
        [("f_date", "2020-01-15"), ("f_time", "")]).1 ⟨"f_tz", []⟩ = [] ∧
     (validate_date_inputs ⟨[], false⟩ ⟨"f", []⟩ ⟨[], []⟩
        [("f_date", "2020-01-15"), ("f_time", "")]).2.2.2 = none) ∧
    (errGet (validate_date_inputs ⟨[], false⟩ ⟨"f", []⟩ ⟨[], []⟩
        [("f_date", ""), ("f_time", "10:00")]).1 ⟨"f_date", []⟩ =
      ["Date is required when a time is provided"]) := by
  exact ⟨⟨rfl, rfl, rfl, rfl, rfl⟩, rfl⟩

/-- C4: for the timezone-aware validator with sub-inputs
`date="2020-01-15"`, `time="10:00"`, `tz="Europe/London"`, the value written
back at the primary key is the naive 2020-01-15T10:00 localized into
Europe/London (offset attached, wall clock unshifted) and then converted to
its canonical UTC equivalent (that offset being zero in January, the
canonical form is the same wall-clock instant). -/

theorem scheming_isodatetime_tz_example :
    dataGet (scheming_isodatetime_tz ⟨[], false⟩ ⟨"f", []⟩
        ⟨[(⟨"f", []⟩, .missingV), (extrasKey, .extrasDict
          [("f_date", "2020-01-15"), ("f_time", "10:00"),
           ("f_tz", "Europe/London")])], []⟩).1 ⟨"f", []⟩ =
      some (.dt (scheming_datetime_to_UTC
        (pytzLocalize "Europe/London" (.naive ⟨2020, 1, 15, 10, 0, 0⟩)))) ∧
    (scheming_isodatetime_tz ⟨[], false⟩ ⟨"f", []⟩
        ⟨[(⟨"f", []⟩, .missingV), (extrasKey, .extrasDict
          [("f_date", "2020-01-15"), ("f_time", "10:00"),
           ("f_tz", "Europe/London")])], []⟩).2 = none ∧
    pytzLocalize "Europe/London" (.naive ⟨2020, 1, 15, 10, 0, 0⟩) =
      .aware ⟨2020, 1, 15, 10, 0, 0⟩ "Europe/London" 0 ∧
    scheming_datetime_to_UTC
        (pytzLocalize "Europe/London" (.naive ⟨2020, 1, 15, 10, 0, 0⟩)) =
      .naive ⟨2020, 1, 15, 10, 0, 0⟩ := by
  exact ⟨rfl, rfl, rfl, rfl⟩

/-- C8: when the primary value is already a typed `datetime` instance, both
isodatetime validators bypass sub-field assembly entirely: the naive
variant returns with no mutation at all; the timezone-aware variant writes
only the canonical-UTC conversion at the primary key, leaving the error
accumulator, every other record-data entry, and the Extras Bag untouched,
and neither raises. -/

theorem isodatetime_dt_bypass (field : FieldDef) (key : DKey) (st : VState)
    (d : PyDateTime) (hv : dataGet st key = some (.dt d))
    (hk : key ≠ extrasKey) :
    scheming_isodatetime field key st = (st, none) ∧
    scheming_isodatetime_tz field key st =
      (dataSet st key (.dt (scheming_datetime_to_UTC d)), none) ∧
    (scheming_isodatetime_tz field key st).1.errors = st.errors ∧
    dataGet (scheming_isodatetime_tz field key st).1 key =
      some (.dt (scheming_datetime_to_UTC d)) ∧
    (∀ k', k' ≠ key →
      dataGet (scheming_isodatetime_tz field key st).1 k' = dataGet st k') ∧
    dataGet (scheming_isodatetime_tz field key st).1 extrasKey =
      dataGet st extrasKey := by
  have hval : dataGetD st key = .dt d := by rw [dataGetD, hv]; rfl
  have h1 : scheming_isodatetime field key st = (st, none) := by
    unfold scheming_isodatetime
    rw [hval]
    rfl
  have h2 : scheming_isodatetime_tz field key st =
      (dataSet st key (.dt (scheming_datetime_to_UTC d)), none) := by
    unfold scheming_isodatetime_tz
    rw [hval]
    rfl
  refine ⟨h1, h2, by rw [h2]; rfl, ?_, ?_, ?_⟩
  · rw [h2]
    exact alLookup_alSet_self st.data key _
  · intro k' hk'
    rw [h2]
    exact alLookup_alSet_ne st.data key k' _ hk'
  · rw [h2]
    exact alLookup_alSet_ne st.data key extrasKey _ (Ne.symm hk)

/-- Witness for C8 at a one-entry record holding a naive datetime. -/

theorem isodatetime_dt_bypass_witness :
    scheming_isodatetime ⟨[], true⟩ ⟨"f", []⟩
        ⟨[(⟨"f", []⟩, .dt (.naive ⟨2020, 1, 15, 10, 0, 0⟩))], []⟩ =
      (⟨[(⟨"f", []⟩, .dt (.naive ⟨2020, 1, 15, 10, 0, 0⟩))], []⟩, none) ∧
    scheming_isodatetime_tz ⟨[], true⟩ ⟨"f", []⟩
        ⟨[(⟨"f", []⟩, .dt (.naive ⟨2020, 1, 15, 10, 0, 0⟩))], []⟩ =
      (dataSet ⟨[(⟨"f", []⟩, .dt (.naive ⟨2020, 1, 15, 10, 0, 0⟩))], []⟩
        ⟨"f", []⟩ (.dt (scheming_datetime_to_UTC
          (.naive ⟨2020, 1, 15, 10, 0, 0⟩))), none) := by
  have h := isodatetime_dt_bypass ⟨[], true⟩ ⟨"f", []⟩
    ⟨[(⟨"f", []⟩, .dt (.naive ⟨2020, 1, 15, 10, 0, 0⟩))], []⟩
    (.naive ⟨2020, 1, 15, 10, 0, 0⟩) rfl (by decide)
  exact ⟨h.1, h.2.1⟩

/-! ## Properties of `get_input` -/

theorem alLookup_eq_none {K V : Type} [DecidableEq K] (l : List (K × V))
    (k : K) (h : k ∉ l.map Prod.fst) : alLookup l k = none := by
  induction l with
  | nil => rfl
  | cons hd t ih =>
    obtain ⟨k0, v0⟩ := hd
    simp only [List.map_cons, List.mem_cons] at h
    push_neg at h
    rw [alLookup, if_neg (Ne.symm h.1)]
    exact ih h.2

theorem alLookup_alErase_self {K V : Type} [DecidableEq K]
    (l : List (K × V)) (k : K) (hnodup : (l.map Prod.fst).Nodup) :
    alLookup (alErase l k) k = none := by
  induction l with
  | nil => rfl
  | cons hd t ih =>
    obtain ⟨k0, v0⟩ := hd
    simp only [List.map_cons, List.nodup_cons] at hnodup
    by_cases hk : k0 = k
    · subst hk
      rw [alErase, if_pos rfl]
      exact alLookup_eq_none t k0 hnodup.1
    · rw [alErase, if_neg hk, alLookup, if_neg hk]
      exact ih hnodup.2

/-- C9 counterexample: a derived flat name that is present in the Extras
Bag but bound to the empty string is **not** removed (`if value:` guards
the deletion, and `''` is falsy), although the claim asserts removal for
every present key. -/

theorem get_input_empty_value_not_removed :
    alLookup (get_input ⟨[], false⟩ ⟨"f", []⟩ "date" ⟨[], []⟩
        [("f_date", "")]).2.1 "f_date" = some "" ∧
    dataGet (get_input ⟨[], false⟩ ⟨"f", []⟩ "date" ⟨[], []⟩
        [("f_date", "")]).1 ⟨"f_date", []⟩ = some (.str "") ∧
    errGet (get_input ⟨[], false⟩ ⟨"f", []⟩ "date" ⟨[], []⟩
        [("f_date", "")]).1 ⟨"f_date", []⟩ = [] := by
  exact ⟨rfl, rfl, rfl⟩

/-- The raising branch of `not_empty` appends an error but never changes
Record Data: lookups through its result state are unchanged. -/

theorem dataGet_not_empty_fst (k : DKey) (st : VState) (k2 : DKey) :
    dataGet (not_empty k st).1 k2 = dataGet st k2 := by
  unfold not_empty
  simp only []
  split
  · rfl
  · rfl

/-- C9 amended: for each suffix processed by sub-field assembly, a derived
flat name present in the Extras Bag **with a non-empty value** is removed
from the bag by `get_input`; the raw value is written into Record Data
under the derived key tuple, the error-accumulator entry for the derived
key is set to the empty list (and stays empty, the value being truthy, even
under the required-field check), no exception is raised; a name absent from
the Extras Bag is read as empty (`None`) and stored as such. -/

theorem get_input_spec (field : FieldDef) (key : DKey) (suffix : String)
    (st : VState) (extras : List (String × String)) (v : String)
    (hnodup : (extras.map Prod.fst).Nodup)
    (hpresent : alLookup extras (key.head ++ "_" ++ suffix) = some v)
    (hv : v ≠ "") :
    alLookup (get_input field key suffix st extras).2.1
      (key.head ++ "_" ++ suffix) = none ∧
    dataGet (get_input field key suffix st extras).1
      (derivedKey key (key.head ++ "_" ++ suffix)) = some (.str v) ∧
    errGet (get_input field key suffix st extras).1
      (derivedKey key (key.head ++ "_" ++ suffix)) = [] ∧
    (get_input field key suffix st extras).2.2.2.1 = some v ∧
    (get_input field key suffix st extras).2.2.2.2 = none ∧
    (∀ extras2 : List (String × String),
      alLookup extras2 (key.head ++ "_" ++ suffix) = none →
      (get_input field key suffix st extras2).2.2.2.1 = none ∧
      dataGet (get_input field key suffix st extras2).1
        (derivedKey key (key.head ++ "_" ++ suffix)) = some .pynone) := by
  have htruthy : optStrTruthy (some v) = true := by simp [optStrTruthy, hv]
  have hstate : get_input field key suffix st extras =
      (errSet (dataSet st (derivedKey key (key.head ++ "_" ++ suffix)) (.str v))
          (derivedKey key (key.head ++ "_" ++ suffix)) [],
        alErase extras (key.head ++ "_" ++ suffix),
        derivedKey key (key.head ++ "_" ++ suffix), some v, none) := by
    unfold get_input
    simp only []
    rw [hpresent]
    simp only [htruthy, if_true]
    by_cases hreq : field.required
    · rw [if_pos hreq]
      have hne : not_empty (derivedKey key (key.head ++ "_" ++ suffix))
          (errSet (dataSet st (derivedKey key (key.head ++ "_" ++ suffix))
            (.str v)) (derivedKey key (key.head ++ "_" ++ suffix)) []) =
          (errSet (dataSet st (derivedKey key (key.head ++ "_" ++ suffix))
            (.str v)) (derivedKey key (key.head ++ "_" ++ suffix)) [], none) := by
        unfold not_empty
        have hget : dataGet (errSet (dataSet st
            (derivedKey key (key.head ++ "_" ++ suffix)) (.str v))
            (derivedKey key (key.head ++ "_" ++ suffix)) [])
            (derivedKey key (key.head ++ "_" ++ suffix)) = some (.str v) := by
          show alLookup (alSet st.data _ _) _ = _
          exact alLookup_alSet_self st.data _ _
        rw [hget]
        simp only []
        rw [if_neg (by simp [pyTruthy, hv])]
      rw [hne]
    · rw [if_neg hreq]
  refine ⟨?_, ?_, ?_, ?_, ?_, ?_⟩
  · rw [hstate]
    exact alLookup_alErase_self extras _ hnodup
  · rw [hstate]
    show alLookup (alSet st.data _ _) _ = _
    exact alLookup_alSet_self st.data _ _
  · rw [hstate]
    show (alLookup (alSet st.errors _ _) _).getD [] = _
    rw [alLookup_alSet_self]
    rfl
  · rw [hstate]
  · rw [hstate]
  · intro extras2 habsent
    have hstate2 : get_input field key suffix st extras2 =
        ((if field.required then
            (not_empty (derivedKey key (key.head ++ "_" ++ suffix))
              (errSet (dataSet st (derivedKey key (key.head ++ "_" ++ suffix))
                .pynone) (derivedKey key (key.head ++ "_" ++ suffix)) [])).1
          else errSet (dataSet st (derivedKey key (key.head ++ "_" ++ suffix))
            .pynone) (derivedKey key (key.head ++ "_" ++ suffix)) []),
          extras2, derivedKey key (key.head ++ "_" ++ suffix), none,
          if field.required then
            (not_empty (derivedKey key (key.head ++ "_" ++ suffix))
              (errSet (dataSet st (derivedKey key (key.head ++ "_" ++ suffix))
                .pynone) (derivedKey key (key.head ++ "_" ++ suffix)) [])).2
          else none) := by
      unfold get_input
      simp only []
      rw [habsent]
      simp only [optStrTruthy, if_false]
      rw [if_neg Bool.false_ne_true]
      by_cases hreq : field.required
      · rw [if_pos hreq, if_pos hreq, if_pos hreq]
      · rw [if_neg hreq, if_neg hreq, if_neg hreq]
    constructor
    · rw [hstate2]
    · rw [hstate2]
      by_cases hreq : field.required
      · rw [if_pos hreq]
        rw [dataGet_not_empty_fst]
        show alLookup (alSet st.data _ _) _ = _
        exact alLookup_alSet_self st.data _ _
      · rw [if_neg hreq]
        show alLookup (alSet st.data _ _) _ = _
        exact alLookup_alSet_self st.data _ _

/-- Witness for the amended C9 at a singleton Extras Bag. -/

theorem get_input_spec_witness :
    alLookup (get_input ⟨[], true⟩ ⟨"f", []⟩ "date" ⟨[], []⟩
      [("f_date", "2020-01-15")]).2.1 "f_date" = none ∧
    dataGet (get_input ⟨[], true⟩ ⟨"f", []⟩ "date" ⟨[], []⟩
      [("f_date", "2020-01-15")]).1 ⟨"f_date", []⟩ = some (.str "2020-01-15") ∧
    errGet (get_input ⟨[], true⟩ ⟨"f", []⟩ "date" ⟨[], []⟩
      [("f_date", "2020-01-15")]).1 ⟨"f_date", []⟩ = [] ∧
    (get_input ⟨[], true⟩ ⟨"f", []⟩ "date" ⟨[], []⟩
      [("f_date", "2020-01-15")]).2.2.2.1 = some "2020-01-15" ∧
    (get_input ⟨[], true⟩ ⟨"f", []⟩ "date" ⟨[], []⟩
      [("f_date", "2020-01-15")]).2.2.2.2 = none ∧
    (∀ extras2 : List (String × String), alLookup extras2 "f_date" = none →
      (get_input ⟨[], true⟩ ⟨"f", []⟩ "date" ⟨[], []⟩ extras2).2.2.2.1 = none ∧
      dataGet (get_input ⟨[], true⟩ ⟨"f", []⟩ "date" ⟨[], []⟩ extras2).1
        ⟨"f_date", []⟩ = some .pynone) :=
  get_input_spec ⟨[], true⟩ ⟨"f", []⟩ "date" ⟨[], []⟩
    [("f_date", "2020-01-15")] "2020-01-15" (by simp) rfl (by simp)

end Scheming
